import Mathlib

/-!
# Verification of the time-normalisation and schedule-repair core of src/main.py

The repository is a Streamlit studio-management app (src/main.py).  This file
gives a shallow embedding of its pure core — the time normaliser
(normalizar_horario), the schedule cleaning/repair pipeline (limpar_agenda,
corrigir_horarios_antigos, pd.to_datetime + dropna, fix_ids), the CSV
save/reload round-trip, the add-entry handler, and the day-bucket/sort logic
used by PDF export and rendering — and proves or refutes the frozen claims
about it.

Modelling conventions:
* Python strings are modelled as `List Char`.  Python's `str.lower`,
  `str.strip`, `str.isdigit` are modelled at ASCII level (the data the app
  manipulates is ASCII time text; non-ASCII corner behaviour of these Python
  methods is not load-bearing for any claim).
* Pandas cells are `Option (List Char)`: `none` is NaN.  `pd.read_csv` with
  `dtype=str` turns empty cells into NaN; `to_csv` writes NaN as the empty
  cell.  The round-trip is modelled accordingly (the exotic `na_values`
  sentinel strings of read_csv are abstracted: only the empty cell reads back
  as missing).
* `pd.to_numeric(errors="coerce")` is modelled as an exact decimal parser
  returning a mantissa/negative-exponent pair (value = mantissa / 10^exp).
  IEEE-754 rounding and the `inf` literal are abstracted (exact decimal
  arithmetic); `nan`-like unparseable strings map to `none`, which triggers
  the same reassignment branch as NaN does in pandas.
* `pd.to_datetime(format="%H:%M", errors="coerce")` is modelled after
  strptime's anchored regex for %H and %M: one or two digit fields, hour
  value ≤ 23, minute value ≤ 59, whole string consumed.
-/

namespace Estudio

/-! ## Python string primitives (ASCII model) -/

/-- ASCII whitespace recognised by Python `str.strip`. -/
def isWS (c : Char) : Bool :=
  c == ' ' || c == '\t' || c == '\n' || c == '\r' || c == '\x0b' || c == '\x0c'

/-- ASCII decimal digit (model of the character class of `str.isdigit`). -/
def isPyDigit (c : Char) : Bool := '0' ≤ c && c ≤ '9'

/-- Python `str.lower`, ASCII model. -/
def lowerChar (c : Char) : Char :=
  if 'A' ≤ c && c ≤ 'Z' then Char.ofNat (c.toNat + 32) else c

def lowerL (l : List Char) : List Char := l.map lowerChar

/-- Python `str.strip()` (both ends). -/
def stripL (l : List Char) : List Char :=
  ((l.dropWhile isWS).reverse.dropWhile isWS).reverse

/-- Python `str.replace(" ", "")`. -/
def removeSpaces (l : List Char) : List Char := l.filter (fun c => c != ' ')

/-- Python `str.replace(a, b)` for single characters. -/
def replaceChar (a b : Char) (l : List Char) : List Char :=
  l.map (fun c => if c == a then b else c)

/-- Python `str.split(sep)` for a single-character separator: keeps empty
    fields, `"".split(sep) = [""]`. -/
def splitChar (sep : Char) : List Char → List (List Char)
  | [] => [[]]
  | c :: cs =>
    let r := splitChar sep cs
    if c == sep then [] :: r
    else
      match r with
      | g :: gs => (c :: g) :: gs
      | [] => [[c]]

/-- Python `str.isdigit()`: nonempty and all digits. -/
def isDigits (l : List Char) : Bool := !l.isEmpty && l.all isPyDigit

/-- Python `str.zfill(w)` (sign-aware left zero-padding). -/
def zfill (w : Nat) (l : List Char) : List Char :=
  if w ≤ l.length then l
  else
    match l with
    | '+' :: rest => '+' :: (List.replicate (w - l.length) '0' ++ rest)
    | '-' :: rest => '-' :: (List.replicate (w - l.length) '0' ++ rest)
    | _ => List.replicate (w - l.length) '0' ++ l

/-! ## normalizar_horario (src/main.py lines 44-80)

```python
def normalizar_horario(h):
    if not isinstance(h, str):
        return None, None
    h = h.lower().strip().replace(" ", "")
    h = h.replace("h", ":")
    if ":" not in h:
        h = h + ":00"
    if h.endswith(":"):
        h = h + "00"
    partes = h.split(":")
    if len(partes) != 2:
        return None, None
    hh, mm = partes
    if not hh.isdigit():
        return None, None
    if not mm.isdigit():
        mm = "00"
    hh = hh.zfill(2)
    mm = mm.zfill(2)
    return f"{hh}:{mm}", f"{hh}h{mm}"
```

All call sites in src/main.py pass a `str` (the isinstance guard fires only
for NaN cells, which callers filter out beforehand), so the model takes a
string and returns `none` for the (None, None) outcome. -/

/-- The preprocessing part of normalizar_horario: lower/strip/despace, turn
`h` separators into `:`, supply missing minute text. -/
def normPre (h : List Char) : List Char :=
  let h2 := replaceChar 'h' ':' (removeSpaces (stripL (lowerL h)))
  let h3 := if h2.contains ':' then h2 else h2 ++ [':', '0', '0']
  if h3.getLast? == some ':' then h3 ++ ['0', '0'] else h3

def normalizar_horario (h : List Char) : Option (List Char × List Char) :=
  match splitChar ':' (normPre h) with
  | [hh, mm] =>
    if isDigits hh then
      some (zfill 2 hh ++ ':' :: zfill 2 (if isDigits mm then mm else ['0', '0']),
        zfill 2 hh ++ 'h' :: zfill 2 (if isDigits mm then mm else ['0', '0']))
    else none
  | _ => none

/-- C1: normalize maps "8" to ("08:00","08h00"), "8h" to ("08:00","08h00"),
"8h3" to ("08:03","08h03") (zero-fill, not zero-append); it coerces non-digit
minutes to "00" (so "08:xy" yields ("08:00","08h00")); it returns NotATime
(`none`) for "abc"; and it performs no numeric-range validation, so "25"
yields ("25:00","25h00"). -/
theorem C1_normalize_edge_cases :
    normalizar_horario "8".toList = some ("08:00".toList, "08h00".toList) ∧
    normalizar_horario "8h".toList = some ("08:00".toList, "08h00".toList) ∧
    normalizar_horario "8h3".toList = some ("08:03".toList, "08h03".toList) ∧
    normalizar_horario "08:xy".toList = some ("08:00".toList, "08h00".toList) ∧
    normalizar_horario "abc".toList = none ∧
    normalizar_horario "25".toList = some ("25:00".toList, "25h00".toList) := by
  decide

/-! ## Character-class facts -/

theorem digit_facts {c : Char} (h : isPyDigit c = true) :
    isWS c = false ∧ c ≠ ' ' ∧ c ≠ 'h' ∧ c ≠ ':' ∧ lowerChar c = c := by
  simp only [isPyDigit, Bool.and_eq_true, decide_eq_true_eq] at h
  obtain ⟨h0, h9⟩ := h
  have hA : ¬ ('A' ≤ c) := fun hA => absurd (le_trans hA h9) (by decide)
  refine ⟨?_, ?_, ?_, ?_, ?_⟩
  · cases hw : isWS c
    · rfl
    · exfalso
      simp only [isWS, Bool.or_eq_true, beq_iff_eq] at hw
      rcases hw with ((((rfl | rfl) | rfl) | rfl) | rfl) | rfl <;>
        exact absurd h0 (by decide)
  · rintro rfl; exact absurd h0 (by decide)
  · rintro rfl; exact absurd h9 (by decide)
  · rintro rfl; exact absurd h9 (by decide)
  · simp only [lowerChar, decide_eq_false hA, Bool.false_and, Bool.false_eq_true,
      if_false]

theorem hChar_facts : isWS 'h' = false ∧ lowerChar 'h' = 'h' := by decide

/-! ## No-op lemmas for the string primitives -/

theorem dropWhile_eq_self {p : Char → Bool} {l : List Char}
    (h : ∀ c ∈ l, p c = false) : l.dropWhile p = l := by
  cases l with
  | nil => rfl
  | cons c cs => simp [List.dropWhile_cons, h c (List.mem_cons_self ..)]

theorem stripL_eq_self {l : List Char} (h : ∀ c ∈ l, isWS c = false) :
    stripL l = l := by
  unfold stripL
  rw [dropWhile_eq_self h,
    dropWhile_eq_self (fun c hc => h c (List.mem_reverse.mp hc)),
    List.reverse_reverse]

theorem removeSpaces_eq_self {l : List Char} (h : ∀ c ∈ l, c ≠ ' ') :
    removeSpaces l = l :=
  List.filter_eq_self.mpr (fun c hc => by simp [h c hc])

theorem lowerL_eq_self {l : List Char} (h : ∀ c ∈ l, lowerChar c = c) :
    lowerL l = l := by
  unfold lowerL
  rw [List.map_congr_left h, List.map_id' l]

theorem replaceChar_eq_self {a b : Char} {l : List Char} (h : ∀ c ∈ l, c ≠ a) :
    replaceChar a b l = l := by
  unfold replaceChar
  rw [List.map_congr_left (g := fun c => c) (fun c hc => by simp [h c hc]),
    List.map_id' l]

theorem replaceChar_append_mid {a b : Char} {A B : List Char}
    (hA : ∀ c ∈ A, c ≠ a) (hB : ∀ c ∈ B, c ≠ a) :
    replaceChar a b (A ++ a :: B) = A ++ b :: B := by
  have h1 : replaceChar a b A = A := replaceChar_eq_self hA
  have h2 : replaceChar a b B = B := replaceChar_eq_self hB
  unfold replaceChar at h1 h2 ⊢
  rw [List.map_append, List.map_cons, h1, h2]
  simp

theorem splitChar_of_not_mem {sep : Char} {l : List Char} (h : sep ∉ l) :
    splitChar sep l = [l] := by
  induction l with
  | nil => rfl
  | cons c cs ih =>
    have hc : (c == sep) = false := by
      simp only [beq_eq_false_iff_ne, ne_eq]
      rintro rfl; exact h (List.mem_cons_self ..)
    unfold splitChar
    rw [hc]
    simp only [Bool.false_eq_true, if_false]
    rw [ih (fun hm => h (List.mem_cons_of_mem _ hm))]

theorem splitChar_append {sep : Char} {A B : List Char} (h : sep ∉ A) :
    splitChar sep (A ++ sep :: B) = A :: splitChar sep B := by
  induction A with
  | nil => simp [splitChar]
  | cons c cs ih =>
    have hc : (c == sep) = false := by
      simp only [beq_eq_false_iff_ne, ne_eq]
      rintro rfl; exact h (List.mem_cons_self ..)
    have hrec := ih (fun hm => h (List.mem_cons_of_mem _ hm))
    simp only [List.cons_append]
    conv_lhs => unfold splitChar
    simp only [hc, Bool.false_eq_true, if_false, hrec]

/-! ## zfill facts -/

theorem zfill_eq_self {w : Nat} {l : List Char} (h : w ≤ l.length) :
    zfill w l = l := by
  unfold zfill; rw [if_pos h]

theorem zfill_two_spec {l : List Char} (h : isDigits l = true) :
    isDigits (zfill 2 l) = true ∧ 2 ≤ (zfill 2 l).length := by
  by_cases hl : 2 ≤ l.length
  · rw [zfill_eq_self hl]; exact ⟨h, hl⟩
  · rcases l with _ | ⟨c, _ | ⟨c2, cs2⟩⟩
    · simp [isDigits] at h
    · have hc : isPyDigit c = true := by
        simp only [isDigits, Bool.and_eq_true, List.all_eq_true] at h
        exact h.2 c (List.mem_cons_self ..)
      have h48 : '0' ≤ c := by
        simp only [isPyDigit, Bool.and_eq_true, decide_eq_true_eq] at hc
        exact hc.1
      unfold zfill
      rw [if_neg hl]
      split
      · exfalso
        rename_i heqq
        injection heqq with h1 _
        subst h1; exact absurd h48 (by decide)
      · exfalso
        rename_i heqq
        injection heqq with h1 _
        subst h1; exact absurd h48 (by decide)
      next =>
        refine ⟨?_, by simp⟩
        simp only [isDigits, List.length_cons, List.length_nil, Bool.and_eq_true,
          List.all_eq_true]
        constructor
        · simp
        · intro c' hc'
          simp only [List.mem_append, List.mem_replicate, List.mem_singleton] at hc'
          rcases hc' with ⟨_, rfl⟩ | rfl
          · decide
          · exact hc
    · exfalso; exact hl (by simp)

/-! ## Schedule rows and the cleaning/repair stages -/

/-- One row of agenda.csv as loaded with dtype=str: each cell is a string or
NaN (`none`). -/
structure Row where
  id : Option (List Char)
  dia : Option (List Char)
  horario : Option (List Char)
  horario_sort : Option (List Char)
  nome : Option (List Char)
  profissional : Option (List Char)
  duracao : Option (List Char)
deriving DecidableEq, Repr

/-- All seven cells missing: the dropna(how="all") criterion. -/
def allNA (r : Row) : Bool :=
  r.id.isNone && r.dia.isNone && r.horario.isNone && r.horario_sort.isNone &&
    r.nome.isNone && r.profissional.isNone && r.duracao.isNone

/-- drop_duplicates(): keep the first occurrence of each distinct row. -/
def dropDupsAux : List Row → List Row → List Row
  | _, [] => []
  | seen, r :: rs =>
    if r ∈ seen then dropDupsAux seen rs else r :: dropDupsAux (r :: seen) rs

def dropDups (l : List Row) : List Row := dropDupsAux [] l

/-- limpar_agenda (src/main.py lines 189-202): dropna(how="all"),
drop_duplicates, fillna("")/astype(str) on horario, then drop rows whose
horario is blank after stripping.  The horario column always exists here
because load_csv is called with the full column list. -/
def limpar (df : List Row) : List Row :=
  ((dropDups (df.filter (fun r => !allNA r))).map
      (fun r => { r with horario := some (r.horario.getD []) })).filter
    (fun r => stripL (r.horario.getD []) != [])

/-- Python h_display.split(" ")[-1]. -/
def lastSpaceSeg (l : List Char) : List Char := (splitChar ' ' l).getLastD []

/-- corrigir_horarios_antigos (src/main.py lines 207-236), one row: skip NaN
horario; strip; if a space occurs keep only the last space-separated field;
normalise; on success overwrite horario_sort and horario. -/
def corrigirRow (r : Row) : Row :=
  match r.horario with
  | none => r
  | some s =>
    let h1 := stripL s
    match normalizar_horario (if h1.contains ' ' then lastSpaceSeg h1 else h1) with
    | none => r
    | some (hs, hd) => { r with horario_sort := some hs, horario := some hd }

def corrigir (df : List Row) : List Row := df.map corrigirRow

/-! ## The canonical shape of normalizar_horario outputs -/

theorem mem_canon {a b : List Char} (ha : isDigits a = true)
    (hb : isDigits b = true) :
    ∀ c ∈ a ++ 'h' :: b, isPyDigit c = true ∨ c = 'h' := by
  have haD : ∀ c ∈ a, isPyDigit c = true := by
    simp only [isDigits, Bool.and_eq_true, List.all_eq_true] at ha; exact ha.2
  have hbD : ∀ c ∈ b, isPyDigit c = true := by
    simp only [isDigits, Bool.and_eq_true, List.all_eq_true] at hb; exact hb.2
  intro c hc
  rcases List.mem_append.mp hc with h1 | h1
  · exact Or.inl (haD c h1)
  · rcases List.mem_cons.mp h1 with rfl | h2
    · exact Or.inr rfl
    · exact Or.inl (hbD c h2)

/-- Applying normalizar_horario to a canonical display string gives back the
matching canonical (sort, display) pair. -/
theorem normalizar_canonical {a b : List Char} (ha : isDigits a = true)
    (hb : isDigits b = true) (ha2 : 2 ≤ a.length) (hb2 : 2 ≤ b.length) :
    normalizar_horario (a ++ 'h' :: b) = some (a ++ ':' :: b, a ++ 'h' :: b) := by
  have haD : ∀ c ∈ a, isPyDigit c = true := by
    simp only [isDigits, Bool.and_eq_true, List.all_eq_true] at ha; exact ha.2
  have hbD : ∀ c ∈ b, isPyDigit c = true := by
    simp only [isDigits, Bool.and_eq_true, List.all_eq_true] at hb; exact hb.2
  have hbne : b ≠ [] := by
    intro e; rw [e] at hb2; simp at hb2
  have hchars := mem_canon ha hb
  have hlow : lowerL (a ++ 'h' :: b) = a ++ 'h' :: b := by
    apply lowerL_eq_self; intro c hc
    rcases hchars c hc with hd | rfl
    · exact (digit_facts hd).2.2.2.2
    · rfl
  have hstrip : stripL (a ++ 'h' :: b) = a ++ 'h' :: b := by
    apply stripL_eq_self; intro c hc
    rcases hchars c hc with hd | rfl
    · exact (digit_facts hd).1
    · rfl
  have hsp : removeSpaces (a ++ 'h' :: b) = a ++ 'h' :: b := by
    apply removeSpaces_eq_self; intro c hc
    rcases hchars c hc with hd | rfl
    · exact (digit_facts hd).2.1
    · decide
  have hrep : replaceChar 'h' ':' (a ++ 'h' :: b) = a ++ ':' :: b :=
    replaceChar_append_mid (fun c hc => (digit_facts (haD c hc)).2.2.1)
      (fun c hc => (digit_facts (hbD c hc)).2.2.1)
  have hcolon : ((a ++ ':' :: b).contains ':') = true := by
    simp
  have hlast : ((a ++ ':' :: b).getLast? == some ':') = false := by
    rw [List.getLast?_append_of_ne_nil _ (by simp : (':' :: b) ≠ []),
      show (':' :: b) = [':'] ++ b from rfl,
      List.getLast?_append_of_ne_nil _ hbne, List.getLast?_eq_getLast b hbne]
    simp only [beq_eq_false_iff_ne, ne_eq, Option.some.injEq]
    exact (digit_facts (hbD _ (List.getLast_mem hbne))).2.2.2.1
  have hpre : normPre (a ++ 'h' :: b) = a ++ ':' :: b := by
    unfold normPre
    simp only [hlow, hstrip, hsp, hrep, hcolon, if_true, hlast,
      Bool.false_eq_true, if_false]
  have hac : ':' ∉ a := fun hm => absurd (haD _ hm) (by decide)
  have hbc : ':' ∉ b := fun hm => absurd (hbD _ hm) (by decide)
  unfold normalizar_horario
  rw [hpre, splitChar_append hac, splitChar_of_not_mem hbc]
  simp only [ha, hb, if_true, zfill_eq_self ha2, zfill_eq_self hb2]

/-- Every successful normalizar_horario output is a canonical pair built from
two zero-filled digit fields of length at least two. -/
theorem normalizar_shape {h hs hd : List Char}
    (H : normalizar_horario h = some (hs, hd)) :
    ∃ a b, isDigits a = true ∧ isDigits b = true ∧ 2 ≤ a.length ∧
      2 ≤ b.length ∧ hs = a ++ ':' :: b ∧ hd = a ++ 'h' :: b := by
  unfold normalizar_horario at H
  split at H
  · rename_i hh mm heq
    split at H
    · rename_i hdig
      simp only [Option.some.injEq, Prod.mk.injEq] at H
      obtain ⟨Hs, Hd⟩ := H
      have hmm : isDigits (if isDigits mm then mm else ['0', '0']) = true := by
        split
        · assumption
        · decide
      obtain ⟨ha', ha2⟩ := zfill_two_spec hdig
      obtain ⟨hb', hb2⟩ := zfill_two_spec hmm
      exact ⟨zfill 2 hh, zfill 2 (if isDigits mm then mm else ['0', '0']),
        ha', hb', ha2, hb2, Hs.symm, Hd.symm⟩
    · exact absurd H (by simp)
  · exact absurd H (by simp)

/-- corrigir on a row whose horario already is a canonical display string
rewrites both time fields with exactly the matching canonical values. -/
theorem corrigirRow_of_canonical {a b : List Char} (ha : isDigits a = true)
    (hb : isDigits b = true) (ha2 : 2 ≤ a.length) (hb2 : 2 ≤ b.length)
    (r : Row) (hr : r.horario = some (a ++ 'h' :: b)) :
    corrigirRow r = { r with horario_sort := some (a ++ ':' :: b), horario := some (a ++ 'h' :: b) } := by
  have hchars := mem_canon ha hb
  have hstrip : stripL (a ++ 'h' :: b) = a ++ 'h' :: b := by
    apply stripL_eq_self; intro c hc
    rcases hchars c hc with hd | rfl
    · exact (digit_facts hd).1
    · rfl
  have hnosp : ' ' ∉ a ++ 'h' :: b := by
    intro hm
    rcases hchars _ hm with hd | he
    · exact absurd hd (by decide)
    · exact absurd he (by decide)
  have hcont : ((a ++ 'h' :: b).contains ' ') = false := by simpa using hnosp
  simp only [corrigirRow, hr, hstrip, hcont, Bool.false_eq_true, if_false,
    normalizar_canonical ha hb ha2 hb2]

theorem corrigirRow_idem (r : Row) : corrigirRow (corrigirRow r) = corrigirRow r := by
  cases hh : r.horario with
  | none =>
    have h1 : corrigirRow r = r := by
      simp only [corrigirRow, hh]
    rw [h1]; exact h1
  | some s =>
    cases hn : normalizar_horario
        (if (stripL s).contains ' ' then lastSpaceSeg (stripL s) else stripL s) with
    | none =>
      have h1 : corrigirRow r = r := by
        simp only [corrigirRow, hh, hn]
      rw [h1]; exact h1
    | some p =>
      obtain ⟨hs, hd⟩ := p
      obtain ⟨a, b, ha, hb, ha2, hb2, rfl, rfl⟩ := normalizar_shape hn
      have h1 : corrigirRow r = { r with horario_sort := some (a ++ ':' :: b), horario := some (a ++ 'h' :: b) } := by
        simp only [corrigirRow, hh, hn]
      rw [h1, corrigirRow_of_canonical ha hb ha2 hb2 _ rfl]

/-- A row already in canonical repaired form, used as concrete test data. -/
def canonRow : Row where
  id := some "1".toList
  dia := some "segunda".toList
  horario := some "08h00".toList
  horario_sort := some "08:00".toList
  nome := some "Ana".toList
  profissional := some "Fernanda".toList
  duracao := some "45".toList

/-- C2: repairTimes is idempotent: for every row collection,
repairTimes(repairTimes(rows)) equals repairTimes(rows); in particular a row
already carrying the canonical display time "08h00" passes through repair
unchanged. -/
theorem C2_repair_idempotent :
    (∀ rows : List Row, corrigir (corrigir rows) = corrigir rows) ∧
    corrigir [canonRow] = [canonRow] := by
  constructor
  · intro rows
    unfold corrigir
    rw [List.map_map]
    exact List.map_congr_left (fun r _ => corrigirRow_idem r)
  · decide

/-! ## pd.to_numeric model: exact decimal numbers -/

/-- A parsed pandas numeric: mantissa and negative decadic exponent; the
represented value is `.1 / 10 ^ .2`.  Exact decimal arithmetic stands in for
IEEE-754 doubles (float rounding and the infinity literals are abstracted). -/
abbrev PyNum := Int × Nat

/-- Value equality of parsed numerics (what float comparison compares):
cross-multiplied mantissas. -/
def pnEq (p q : PyNum) : Bool := p.1 * (10 : Int) ^ q.2 == q.1 * (10 : Int) ^ p.2

/-- NaN-aware cell equality as used by Series.duplicated (NaN counts as a
duplicate of NaN there). -/
def pnCellEq : Option PyNum → Option PyNum → Bool
  | none, none => true
  | some p, some q => pnEq p q
  | _, _ => false

/-- Numeric value of a decimal digit string. -/
def digitsVal (l : List Char) : Nat := l.foldl (fun a c => 10 * a + (c.toNat - 48)) 0

/-- Optional sign prefix: the sign and the remainder. -/
def readSign : List Char → Int × List Char
  | '+' :: rest => (1, rest)
  | '-' :: rest => (-1, rest)
  | l => (1, l)

/-- Assemble a PyNum from sign, integer digits, fraction digits and a decadic
exponent. -/
def mkPN (sgn : Int) (ip fp : List Char) (e : Int) : PyNum :=
  if 0 ≤ e then (sgn * (digitsVal (ip ++ fp) : Int) * (10 : Int) ^ e.toNat, fp.length)
  else (sgn * (digitsVal (ip ++ fp) : Int), fp.length + (-e).toNat)

/-- Exponent suffix of a float literal. -/
def readExp (sgn : Int) (ip fp rest : List Char) : Option PyNum :=
  let ed := (readSign rest).2.takeWhile isPyDigit
  let r2 := (readSign rest).2.dropWhile isPyDigit
  if ed.isEmpty || !r2.isEmpty then none
  else some (mkPN sgn ip fp ((readSign rest).1 * (digitsVal ed : Int)))

/-- Model of pd.to_numeric(errors="coerce") on one cell: parse an optionally
signed decimal literal with optional fraction and exponent; anything else
(including the empty string) coerces to NaN (`none`). -/
def pyToNumeric (s : List Char) : Option PyNum :=
  let sgn := (readSign s).1
  let l1 := (readSign s).2
  let ip := l1.takeWhile isPyDigit
  let l2 := l1.dropWhile isPyDigit
  let fp := match l2 with
    | '.' :: rest => rest.takeWhile isPyDigit
    | _ => []
  let l3 := match l2 with
    | '.' :: rest => rest.dropWhile isPyDigit
    | _ => l2
  if ip.isEmpty && fp.isEmpty then none
  else
    match l3 with
    | [] => some (mkPN sgn ip fp 0)
    | 'e' :: rest => readExp sgn ip fp rest
    | 'E' :: rest => readExp sgn ip fp rest
    | _ => none

/-- Decimal digit characters by value. -/
def digitChar10 (d : Nat) : Char :=
  if d = 0 then '0' else if d = 1 then '1' else if d = 2 then '2'
  else if d = 3 then '3' else if d = 4 then '4' else if d = 5 then '5'
  else if d = 6 then '6' else if d = 7 then '7' else if d = 8 then '8' else '9'

/-- Decimal rendering of a natural number (fuel-structured so that the
kernel can evaluate it; the fuel n + 1 always suffices). -/
def natStrAux : Nat → Nat → List Char
  | 0, _ => []
  | fuel + 1, n =>
    if n < 10 then [digitChar10 n]
    else natStrAux fuel (n / 10) ++ [digitChar10 (n % 10)]

def natStr (n : Nat) : List Char := natStrAux (n + 1) n

def intStr (n : Int) : List Char :=
  if n < 0 then '-' :: natStr n.natAbs else natStr n.toNat

/-- How a fix_ids numeric id reads back after to_csv and re-load: an exact
decimal literal (pandas' dtype-dependent float formatting is abstracted to a
canonical exact literal which pd.to_numeric parses back to the same value). -/
def serNum (p : PyNum) : List Char :=
  if p.2 = 0 then intStr p.1 else intStr p.1 ++ 'e' :: '-' :: natStr p.2

/-! ## The datetime stage, fix_ids, and the save/reload round-trip -/

/-- Model of strptime("%H:%M") as applied by
pd.to_datetime(format="%H:%M", errors="coerce"): a one or two digit hour with
value at most 23, a colon, a one or two digit minute with value at most 59,
and nothing else. -/
def parseHM (s : List Char) : Option (Nat × Nat) :=
  match splitChar ':' s with
  | [a, b] =>
    if isDigits a && a.length ≤ 2 && digitsVal a ≤ 23 &&
        isDigits b && b.length ≤ 2 && digitsVal b ≤ 59 then
      some (digitsVal a, digitsVal b)
    else none
  | _ => none

/-- A schedule row after pd.to_datetime on horario_sort: the sort key is now a
time-of-day value (NaT = `none`); everything else untouched. -/
structure TRow where
  id : Option (List Char)
  dia : Option (List Char)
  horario : Option (List Char)
  horario_sort : Option (Nat × Nat)
  nome : Option (List Char)
  profissional : Option (List Char)
  duracao : Option (List Char)
deriving DecidableEq, Repr

def toDatetimeRow (r : Row) : TRow :=
  ⟨r.id, r.dia, r.horario, r.horario_sort.bind parseHM, r.nome, r.profissional,
    r.duracao⟩

def toDatetime (df : List Row) : List TRow := df.map toDatetimeRow

/-- dropna(subset=["horario_sort"]). -/
def dropnaSort (df : List TRow) : List TRow :=
  df.filter (fun r => r.horario_sort.isSome)

/-- A row after fix_ids: the id column has been converted by pd.to_numeric. -/
structure CRow where
  id : Option PyNum
  dia : Option (List Char)
  horario : Option (List Char)
  horario_sort : Option (Nat × Nat)
  nome : Option (List Char)
  profissional : Option (List Char)
  duracao : Option (List Char)
deriving DecidableEq, Repr

def withId (r : TRow) (i : Option PyNum) : CRow :=
  ⟨i, r.dia, r.horario, r.horario_sort, r.nome, r.profissional, r.duracao⟩

/-- Series.duplicated().any(): does any value occur at least twice? -/
def hasDup : List (Option PyNum) → Bool
  | [] => false
  | x :: xs => xs.any (pnCellEq x) || hasDup xs

/-- The id column after pd.to_numeric(errors="coerce")
(`df[id_col] = pd.to_numeric(df[id_col], errors="coerce")`). -/
def numIds (df : List TRow) : List (Option PyNum) :=
  df.map (fun r => r.id.bind pyToNumeric)

/-- The fix_ids reassignment condition:
`df[id_col].isna().any() or df[id_col].duplicated().any()`. -/
def reassignTrigger (df : List TRow) : Bool :=
  (numIds df).any (fun o => o.isNone) || hasDup (numIds df)

/-- fix_ids (src/main.py lines 174-184): run pd.to_numeric(errors="coerce")
over the id column; if any id failed to parse (NaN) or any value is
duplicated, reassign ids positionally as 1..N (`range(1, len(df) + 1)`),
otherwise keep the parsed values. -/
def fix_ids (df : List TRow) : List CRow :=
  if reassignTrigger df then
    df.enum.map (fun ir => withId ir.2 (some (((ir.1 : Int) + 1, 0) : PyNum)))
  else
    (df.zip (numIds df)).map (fun rn => withId rn.1 rn.2)

/-- The agenda load pipeline (src/main.py lines 446-459): clean, repair
legacy times, parse the sort key as %H:%M, drop unparseable rows, repair
ids. -/
def pipeline (df : List Row) : List CRow :=
  fix_ids (dropnaSort (toDatetime (corrigir (limpar df))))

/-- One text cell after to_csv and re-read with dtype=str: NaN is written as
an empty cell and an empty cell reads back as NaN. -/
def serStr : Option (List Char) → Option (List Char)
  | none => none
  | some s => if s = [] then none else some s

/-- Two-digit zero-padded rendering (%02d) for values below 100. -/
def pad2 (n : Nat) : List Char := [digitChar10 (n / 10 % 10), digitChar10 (n % 10)]

/-- A datetime64 cell as to_csv writes it: "1900-01-01 HH:MM:00". -/
def serTime (hm : Nat × Nat) : List Char :=
  ("1900-01-01 ".toList ++ pad2 hm.1) ++ ':' :: (pad2 hm.2 ++ ':' :: ['0', '0'])

/-- save_csv followed by the next load_csv(dtype=str), one row. -/
def serializeRow (r : CRow) : Row where
  id := r.id.map serNum
  dia := serStr r.dia
  horario := serStr r.horario
  horario_sort := r.horario_sort.map serTime
  nome := serStr r.nome
  profissional := serStr r.profissional
  duracao := serStr r.duracao

/-- One full load→clean→repair→parse→drop→fix_ids→save cycle of agenda.csv,
expressed on the persisted string rows. -/
def cycle (df : List Row) : List Row := (pipeline df).map serializeRow

/-! ## fix_ids: characterisation and the id-set claims -/

/-- "The ids form the set {1, ..., N} with each value occurring exactly once"
(N = number of rows), read off an id column. -/
def idsFormOneToN (ids : List (Option PyNum)) : Bool :=
  (List.range ids.length).all fun (i : Nat) =>
    (ids.countP fun o =>
      (o.map (fun p => pnEq p (((i : Int) + 1, 0) : PyNum))).getD false) == 1

/-- The contiguous id column 1..N. -/
def oneToN (n : Nat) : List (Option PyNum) :=
  (List.range n).map (fun (i : Nat) => some (((i : Int) + 1, 0) : PyNum))

theorem map_enum_snd {α β : Type} (l : List α) (f : α → β) :
    l.enum.map (fun ir => f ir.2) = l.map f := by
  rw [List.enum_eq_zip_range]
  have h := List.map_snd_zip (List.range l.length) l (by simp)
  calc ((List.range l.length).zip l).map (fun ir => f ir.2)
      = (((List.range l.length).zip l).map Prod.snd).map f := by
        rw [List.map_map]; rfl
    _ = l.map f := by rw [h]

theorem map_enum_fst {α β : Type} (l : List α) (f : Nat → β) :
    l.enum.map (fun ir => f ir.1) = (List.range l.length).map f := by
  rw [List.enum_eq_zip_range]
  have h := List.map_fst_zip (List.range l.length) l (by simp)
  calc ((List.range l.length).zip l).map (fun ir => f ir.1)
      = (((List.range l.length).zip l).map Prod.fst).map f := by
        rw [List.map_map]; rfl
    _ = (List.range l.length).map f := by rw [h]

theorem map_zip_fst {α β γ : Type} (A : List α) (B : List β) (f : α → γ)
    (h : A.length ≤ B.length) :
    (A.zip B).map (fun ab => f ab.1) = A.map f := by
  have hz := List.map_fst_zip A B h
  calc (A.zip B).map (fun ab => f ab.1)
      = ((A.zip B).map Prod.fst).map f := by rw [List.map_map]; rfl
    _ = A.map f := by rw [hz]

theorem map_zip_snd {α β γ : Type} (A : List α) (B : List β) (f : β → γ)
    (h : B.length ≤ A.length) :
    (A.zip B).map (fun ab => f ab.2) = B.map f := by
  have hz := List.map_snd_zip A B h
  calc (A.zip B).map (fun ab => f ab.2)
      = ((A.zip B).map Prod.snd).map f := by rw [List.map_map]; rfl
    _ = B.map f := by rw [hz]

/-- What fix_ids does to the id column. -/
theorem fix_ids_ids (df : List TRow) :
    (fix_ids df).map (fun r => r.id) =
      if reassignTrigger df = true then oneToN df.length else numIds df := by
  unfold fix_ids
  by_cases h : reassignTrigger df = true
  · rw [if_pos h, if_pos h, List.map_map]
    exact map_enum_fst df (fun (i : Nat) => some (((i : Int) + 1, 0) : PyNum))
  · rw [if_neg h, if_neg h, List.map_map]
    have hz := map_zip_snd df (numIds df) (fun x => x) (by simp [numIds])
    calc (df.zip (numIds df)).map ((fun r => r.id) ∘ fun rn => withId rn.1 rn.2)
        = (df.zip (numIds df)).map (fun ab => (fun x => x) ab.2) := rfl
      _ = (numIds df).map (fun x => x) := hz
      _ = numIds df := List.map_id' _

/-- fix_ids never touches the non-id fields or the row order. -/
def restFields (r : CRow) :
    Option (List Char) × Option (List Char) × Option (Nat × Nat) ×
      Option (List Char) × Option (List Char) × Option (List Char) :=
  (r.dia, r.horario, r.horario_sort, r.nome, r.profissional, r.duracao)

def restFieldsT (r : TRow) :
    Option (List Char) × Option (List Char) × Option (Nat × Nat) ×
      Option (List Char) × Option (List Char) × Option (List Char) :=
  (r.dia, r.horario, r.horario_sort, r.nome, r.profissional, r.duracao)

theorem fix_ids_rest (df : List TRow) :
    (fix_ids df).map restFields = df.map restFieldsT := by
  unfold fix_ids
  by_cases h : reassignTrigger df = true
  · rw [if_pos h, List.map_map]
    exact map_enum_snd df restFieldsT
  · rw [if_neg h, List.map_map]
    have hz := map_zip_fst df (numIds df) restFieldsT (by simp [numIds])
    calc (df.zip (numIds df)).map (restFields ∘ fun rn => withId rn.1 rn.2)
        = (df.zip (numIds df)).map (fun ab => restFieldsT ab.1) := rfl
      _ = df.map restFieldsT := hz

theorem countP_range_eq {i N : Nat} (p : Nat → Bool) (hp : ∀ j, p j = (j == i))
    (hi : i < N) : (List.range N).countP p = 1 := by
  induction N with
  | zero => omega
  | succ n ih =>
    rw [List.range_succ, List.countP_append]
    by_cases h : i < n
    · rw [ih h]
      have hn : p n = false := by rw [hp]; simp; omega
      simp [List.countP_cons, hn]
    · have hin : i = n := by omega
      subst hin
      have h0 : (List.range i).countP p = 0 := by
        rw [List.countP_eq_zero]
        intro j hj
        rw [List.mem_range] at hj
        rw [hp]; simp; omega
      have hi1 : p i = true := by rw [hp]; simp
      simp [h0, List.countP_cons, hi1]

theorem idsFormOneToN_oneToN (N : Nat) : idsFormOneToN (oneToN N) = true := by
  unfold idsFormOneToN oneToN
  rw [List.all_eq_true]
  intro i hi
  rw [List.length_map, List.length_range, List.mem_range] at hi
  rw [List.countP_map]
  have hp : ∀ j : Nat,
      ((fun o => (Option.map (fun p => pnEq p (((i : Int) + 1, 0) : PyNum)) o).getD false) ∘
        (fun (j : Nat) => some (((j : Int) + 1, 0) : PyNum))) j = (j == i) := by
    intro j
    show pnEq (((j : Int) + 1, 0) : PyNum) (((i : Int) + 1, 0) : PyNum) = (j == i)
    rw [Bool.eq_iff_iff]
    simp only [pnEq, beq_iff_eq, pow_zero, mul_one]
    constructor
    · intro hh; omega
    · intro hh; omega
  rw [countP_range_eq _ hp hi]
  rfl

/-- A concrete TRow for fix_ids test data. -/
def trow (i : Option (List Char)) (n : List Char) : TRow where
  id := i
  dia := some "segunda".toList
  horario := some "08h00".toList
  horario_sort := some (8, 0)
  nome := some n
  profissional := some "P".toList
  duracao := some "45".toList

/-- C4 counterexample: with the numeric, distinct, but non-contiguous ids
"2" and "5", fix_ids detects nothing and returns the ids unchanged, so the
output id collection is not {1, 2}: gaps are never detected, refuting the
claim that reindexIds always yields {1, ..., N}. -/
theorem C4_counterexample :
    idsFormOneToN ((fix_ids [trow (some "2".toList) "A".toList,
      trow (some "5".toList) "B".toList]).map (fun r => r.id)) = false := by
  decide

/-- C4 amended: the output ids of reindexIds form the set {1, ..., N} exactly
once each whenever reassignment triggers, i.e. whenever some id fails numeric
coercion or some id value is duplicated; otherwise the original numeric ids
are returned unchanged — a gap in otherwise distinct numeric ids is not
detected and not repaired. -/
theorem C4_amended (df : List TRow) :
    (reassignTrigger df = true →
      idsFormOneToN ((fix_ids df).map (fun r => r.id)) = true) ∧
    (reassignTrigger df = false →
      (fix_ids df).map (fun r => r.id) = numIds df) := by
  constructor
  · intro h
    rw [fix_ids_ids, if_pos h]
    exact idsFormOneToN_oneToN df.length
  · intro h
    rw [fix_ids_ids, if_neg (by simp [h])]

theorem C4_amended_witness :
    idsFormOneToN ((fix_ids [trow (some "1".toList) "A".toList,
      trow (some "1".toList) "B".toList]).map (fun r => r.id)) = true :=
  (C4_amended [trow (some "1".toList) "A".toList,
    trow (some "1".toList) "B".toList]).1 (by decide)

/-- The claim's id-absence criterion, taken verbatim from the spec: an id is
absent when it is not a representable non-negative integer. -/
def specIdPresent (o : Option (List Char)) : Bool :=
  match o.bind pyToNumeric with
  | none => false
  | some p => decide (0 ≤ p.1) && (p.1 % (10 : Int) ^ p.2 == 0)

/-- The C5 claim as stated, as a decidable predicate over an input: if any id
is absent in the claim's sense (not a representable non-negative integer) or
any id value is duplicated, the output ids must be 1..N in order; otherwise
the ids must be untouched. -/
def C5Pred (df : List TRow) : Bool :=
  if (df.map (fun r => r.id)).any (fun o => !specIdPresent o) ||
      hasDup (numIds df) then
    (fix_ids df).map (fun r => r.id) == oneToN df.length
  else
    (fix_ids df).map (fun r => r.id) == numIds df

/-- C5 counterexample: the id "-3" is a representable number but not a
non-negative integer, so the claim calls it absent and demands reassignment
to {1, 2}; pd.to_numeric parses it fine, so fix_ids sees nothing wrong and
keeps the ids (-3, 7) untouched, refuting the claim's absence criterion. -/
theorem C5_counterexample :
    C5Pred [trow (some "-3".toList) "A".toList,
      trow (some "7".toList) "B".toList] = false := by
  decide

/-- C5 amended: reindexIds treats an id as absent exactly when pd.to_numeric
cannot parse it as a number at all — negative and fractional numbers count as
present; if any id is absent or any parsed value is duplicated, it reassigns
ids to all rows as a contiguous 1..N sequence in the rows' current relative
order, and otherwise it leaves every id's numeric value untouched; in both
cases all other fields and the row order are preserved. -/
theorem C5_amended (df : List TRow) :
    (reassignTrigger df = true →
      (fix_ids df).map (fun r => r.id) = oneToN df.length) ∧
    (reassignTrigger df = false →
      (fix_ids df).map (fun r => r.id) = numIds df) ∧
    (fix_ids df).map restFields = df.map restFieldsT := by
  refine ⟨?_, ?_, fix_ids_rest df⟩
  · intro h; rw [fix_ids_ids, if_pos h]
  · intro h; rw [fix_ids_ids, if_neg (by simp [h])]

theorem C5_amended_witness :
    (fix_ids [trow (some "2".toList) "A".toList,
      trow (some "5".toList) "B".toList]).map (fun r => r.id) =
      numIds [trow (some "2".toList) "A".toList,
        trow (some "5".toList) "B".toList] :=
  (C5_amended [trow (some "2".toList) "A".toList,
    trow (some "5".toList) "B".toList]).2.1 (by decide)

/-! ## C10: the %H:%M parse silently drops out-of-range repaired rows -/

theorem parseHM_bounds {s : List Char} {h m : Nat}
    (H : parseHM s = some (h, m)) : h ≤ 23 ∧ m ≤ 59 := by
  unfold parseHM at H
  split at H
  · split at H
    · rename_i hcond
      simp only [Option.some.injEq, Prod.mk.injEq] at H
      obtain ⟨rfl, rfl⟩ := H
      simp only [Bool.and_eq_true, decide_eq_true_eq] at hcond
      exact ⟨hcond.1.1.1.2, hcond.2⟩
    · exact absurd H (by simp)
  · exact absurd H (by simp)

/-- Every row surviving the load pipeline carries an in-range parsed sort
key. -/
theorem pipeline_sort_in_range {df : List Row} {r : CRow}
    (hr : r ∈ pipeline df) :
    ∃ h m, r.horario_sort = some (h, m) ∧ h ≤ 23 ∧ m ≤ 59 := by
  unfold pipeline at hr
  have h1 : restFields r ∈
      (fix_ids (dropnaSort (toDatetime (corrigir (limpar df))))).map restFields :=
    List.mem_map_of_mem _ hr
  rw [fix_ids_rest] at h1
  obtain ⟨t, ht, hrt⟩ := List.mem_map.mp h1
  obtain ⟨htm, hts⟩ := List.mem_filter.mp ht
  obtain ⟨u, hu, rfl⟩ := List.mem_map.mp htm
  have hts' : (u.horario_sort.bind parseHM).isSome = true := hts
  obtain ⟨⟨h, m⟩, hsome⟩ := Option.isSome_iff_exists.mp hts'
  have hb : h ≤ 23 ∧ m ≤ 59 := by
    rcases hu2 : u.horario_sort with _ | s
    · rw [hu2] at hsome; exact absurd hsome (by simp)
    · rw [hu2] at hsome
      exact parseHM_bounds hsome
  have hsort : r.horario_sort = some (h, m) := by
    have hproj := congrArg (fun x => x.2.2.1) hrt
    simp only [restFieldsT, restFields] at hproj
    rw [← hproj]
    exact hsome
  exact ⟨h, m, hsort, hb.1, hb.2⟩

/-- The raw persisted row whose time text is "25". -/
def row25 : Row where
  id := some "1".toList
  dia := some "segunda".toList
  horario := some "25".toList
  horario_sort := none
  nome := some "Ana".toList
  profissional := some "P".toList
  duracao := some "45".toList

/-- C10: every row whose repaired sort-key is outside the 24-hour range
(hour > 23 or minute > 59) is silently dropped by the finalize stage's HH:MM
datetime parse and removed from the saved file, even though normalize
accepted and canonicalized it: no pipeline survivor has an out-of-range sort
key, normalize accepts "25" as ("25:00","25h00"), repair canonicalizes the
"25" row, and the pipeline drops it entirely. -/
theorem C10_out_of_range_rows_dropped :
    (∀ (df : List Row) (r : CRow), r ∈ pipeline df →
      ∃ h m, r.horario_sort = some (h, m) ∧ h ≤ 23 ∧ m ≤ 59) ∧
    normalizar_horario "25".toList = some ("25:00".toList, "25h00".toList) ∧
    (corrigir [row25]).map (fun r => (r.horario, r.horario_sort)) =
      [(some "25h00".toList, some "25:00".toList)] ∧
    pipeline [row25] = [] ∧ cycle [row25] = [] := by
  refine ⟨fun df r hr => pipeline_sort_in_range hr, by decide, by decide,
    by decide, by decide⟩

theorem C10_witness :
    ∃ h m, ((⟨some (1, 0), some "segunda".toList, some "08h00".toList,
        some (8, 0), some "Ana".toList, some "Fernanda".toList,
        some "45".toList⟩ : CRow)).horario_sort = some (h, m) ∧
      h ≤ 23 ∧ m ≤ 59 :=
  C10_out_of_range_rows_dropped.1 [canonRow] _ (by decide)

/-! ## C9: the add-entry handler (src/main.py lines 510-531) -/

/-- Value comparison of parsed numerics (float ≤). -/
def pnLe (p q : PyNum) : Bool := p.1 * (10 : Int) ^ q.2 ≤ q.1 * (10 : Int) ^ p.2

def pnMax (p q : PyNum) : PyNum := if pnLe p q then q else p

/-- agenda_df["id"].max(): NaN cells are skipped; `none` when there is
nothing to take a maximum of (only reachable when the frame is empty, since
fix_ids always yields parsed ids). -/
def maxId (df : List CRow) : Option PyNum :=
  match df.filterMap (fun r => r.id) with
  | [] => none
  | x :: xs => some (xs.foldl pnMax x)

/-- `1 if agenda_df.empty else int(agenda_df["id"].max()) + 1`; Python int()
truncates toward zero, as does Int.div. -/
def novoIdOf (df : List CRow) : Int :=
  match maxId df with
  | none => 1
  | some p => Int.tdiv p.1 ((10 : Int) ^ p.2) + 1

/-- The row that add_row appends to agenda.csv, as re-read on the next
load. -/
def novaLinha (df : List CRow) (dia hs hd nome prof : List Char) (dur : Nat) :
    Row :=
  ⟨some (intStr (novoIdOf df)), some dia, some hd, some hs, some nome,
    some prof, some (natStr dur)⟩

/-- The add-entry button handler: given the in-memory post-pipeline frame and
the four inputs, returns the validation error (if any) together with the
resulting persisted file, which is unchanged whenever an error is shown. -/
def addEntry (df : List CRow) (dia horario_raw nome prof : List Char)
    (dur : Nat) : Option (List Char) × List Row :=
  match normalizar_horario horario_raw with
  | none => (some "Horário inválido. Exemplos válidos: 8, 8h, 8h00, 08:00".toList,
      df.map serializeRow)
  | some (hs, hd) =>
    if stripL nome == [] || stripL prof == [] then
      (some "Preencha horário, nome e profissional.".toList, df.map serializeRow)
    else
      (none, df.map serializeRow ++ [novaLinha df dia hs hd nome prof dur])

/-- C9: creating a schedule entry whose time input normalize rejects, or
whose client name or professional field is empty after trimming, is rejected
with a validation message before insertion and no row is persisted; only when
all three checks pass is a row added (exactly one, appended at the end). -/
theorem C9_add_entry_validation (df : List CRow)
    (dia horario_raw nome prof : List Char) (dur : Nat) :
    ((addEntry df dia horario_raw nome prof dur).1.isSome = true ↔
      (normalizar_horario horario_raw = none ∨ stripL nome = [] ∨
        stripL prof = [])) ∧
    ((addEntry df dia horario_raw nome prof dur).1.isSome = true →
      (addEntry df dia horario_raw nome prof dur).2 = df.map serializeRow) ∧
    (∀ hs hd, normalizar_horario horario_raw = some (hs, hd) →
      stripL nome ≠ [] → stripL prof ≠ [] →
      (addEntry df dia horario_raw nome prof dur).2 =
        df.map serializeRow ++ [novaLinha df dia hs hd nome prof dur]) := by
  unfold addEntry
  split
  · rename_i heq
    refine ⟨by simp [heq], fun _ => rfl, ?_⟩
    intro hs hd hcontra
    rw [heq] at hcontra
    exact absurd hcontra (by simp)
  · rename_i hs0 hd0 heq
    split
    · rename_i hblank
      simp only [Bool.or_eq_true, beq_iff_eq] at hblank
      refine ⟨⟨fun _ => Or.inr hblank, fun _ => rfl⟩, fun _ => rfl, ?_⟩
      intro hs hd _ hnome hprof
      rcases hblank with hb | hb
      · exact absurd hb hnome
      · exact absurd hb hprof
    · rename_i hblank
      simp only [Bool.or_eq_true, beq_iff_eq, not_or] at hblank
      obtain ⟨hb1, hb2⟩ := hblank
      refine ⟨⟨fun habs => absurd habs (by simp), ?_⟩,
        fun habs => absurd habs (by simp), ?_⟩
      · intro hor
        rcases hor with h | h | h
        · rw [heq] at h; exact absurd h (by simp)
        · exact absurd h hb1
        · exact absurd h hb2
      · intro hs hd heq2 _ _
        rw [heq] at heq2
        simp only [Option.some.injEq, Prod.mk.injEq] at heq2
        obtain ⟨rfl, rfl⟩ := heq2
        rfl

theorem C9_witness :
    (addEntry [] "segunda".toList "8".toList "Ana".toList "P".toList 45).2 =
      ([] : List CRow).map serializeRow ++
        [novaLinha [] "segunda".toList "08:00".toList "08h00".toList
          "Ana".toList "P".toList 45] :=
  (C9_add_entry_validation [] "segunda".toList "8".toList "Ana".toList
    "P".toList 45).2.2 "08:00".toList "08h00".toList (by decide) (by decide)
    (by decide)

/-! ## pandas sort_values model

`df.sort_values("horario_sort")` with the default kind='quicksort' performs a
numpy argsort, i.e. the indirect introsort of numpy's npysort/quicksort
(median-of-3 quicksort with an insertion-sort cutoff at segments of at most
SMALL_QUICKSORT + 1 = 16 elements and a heapsort depth fallback).  This is
transcribed below; it is deliberately NOT a stable sort, which is what claim
C6 is about. -/

def npSmall : Nat := 15

def npSwap (t : Array Nat) (i j : Nat) : Array Nat :=
  let a := t.getD i 0
  let b := t.getD j 0
  (t.set! i b).set! j a

/-- v[t[i]]: the sort key of the element whose index sits at position i. -/
def npKey (v t : Array Nat) (i : Nat) : Nat := v.getD (t.getD i 0) 0

/-- do ++pi while v[t[pi]] < vp. -/
def npScanUp (v t : Array Nat) (vp pi : Nat) : Nat → Nat
  | 0 => pi + 1
  | fuel + 1 =>
    if npKey v t (pi + 1) < vp then npScanUp v t vp (pi + 1) fuel else pi + 1

/-- do --pj while vp < v[t[pj]]. -/
def npScanDown (v t : Array Nat) (vp pj : Nat) : Nat → Nat
  | 0 => pj - 1
  | fuel + 1 =>
    if vp < npKey v t (pj - 1) then npScanDown v t vp (pj - 1) fuel else pj - 1

/-- The Hoare-style partition exchange loop. -/
def npPartLoop (v : Array Nat) (t : Array Nat) (vp pi pj : Nat) :
    Nat → Array Nat × Nat
  | 0 => (t, pi)
  | fuel + 1 =>
    let pi' := npScanUp v t vp pi t.size
    let pj' := npScanDown v t vp pj t.size
    if pj' ≤ pi' then (t, pi')
    else npPartLoop v (npSwap t pi' pj') vp pi' pj' fuel

/-- 1-based segment access for the heapsort fallback (a = tosort + base - 1). -/
def hGet (t : Array Nat) (base i : Nat) : Nat := t.getD (base + i - 1) 0

def hSet (t : Array Nat) (base i x : Nat) : Array Nat := t.set! (base + i - 1) x

/-- The sift-down loop shared by both aheapsort phases. -/
def npSift (v t : Array Nat) (base nn tmp : Nat) (i j : Nat) :
    Nat → Array Nat × Nat
  | 0 => (t, i)
  | fuel + 1 =>
    if j ≤ nn then
      let j1 := if j < nn && v.getD (hGet t base j) 0 < v.getD (hGet t base (j + 1)) 0
        then j + 1 else j
      if v.getD tmp 0 < v.getD (hGet t base j1) 0 then
        npSift v (hSet t base i (hGet t base j1)) base nn tmp j1 (j1 + j1) fuel
      else (t, i)
    else (t, i)

def npHeapBuildStep (v : Array Nat) (t : Array Nat) (base nn l : Nat) : Array Nat :=
  let tmp := hGet t base l
  let si := npSift v t base nn tmp l (2 * l) (nn + 2)
  hSet si.1 base si.2 tmp

/-- numpy aheapsort on the segment of nn elements starting at base. -/
def npHeapSort (v : Array Nat) (t : Array Nat) (base nn : Nat) : Array Nat :=
  let built := ((List.range (nn / 2)).reverse.map (· + 1)).foldl
    (fun tt l => npHeapBuildStep v tt base nn l) t
  ((List.range' 2 (nn - 1)).reverse).foldl
    (fun tt n =>
      let tmp := hGet tt base n
      let t1 := hSet tt base n (hGet tt base 1)
      let si := npSift v t1 base (n - 1) tmp 1 2 (n + 2)
      hSet si.1 base si.2 tmp) built

/-- The indirect insertion sort on segment [pl, pr]: shift larger keys right,
so equal keys keep their order (stable below the cutoff). -/
def npInsShift (v : Array Nat) (t : Array Nat) (pl pj vi : Nat) : Nat → Array Nat
  | 0 => t.set! pj vi
  | fuel + 1 =>
    if pl < pj && v.getD vi 0 < npKey v t (pj - 1) then
      npInsShift v (t.set! pj (t.getD (pj - 1) 0)) pl (pj - 1) vi fuel
    else t.set! pj vi

def npInsSortSeg (v : Array Nat) (t : Array Nat) (pl pr : Nat) : Array Nat :=
  (List.range' (pl + 1) (pr - pl)).foldl
    (fun tt pi => npInsShift v tt pl pi (tt.getD pi 0) pi) t

/-- The outer introsort loop of numpy aquicksort: explicit segment stack, a
shared depth budget of 2·msb(n), heapsort once the budget is exhausted,
insertion sort below the cutoff. -/
def npIntro (v : Array Nat) (t : Array Nat) (pl pr : Nat) (depth : Int)
    (stack : List (Nat × Nat)) : Nat → Array Nat
  | 0 => t
  | fuel + 1 =>
    if npSmall < pr - pl then
      if depth < 0 then
        let t1 := npHeapSort v t pl (pr - pl + 1)
        match stack with
        | [] => t1
        | (a, b) :: rest => npIntro v t1 a b (depth - 1) rest fuel
      else
        let pm := pl + (pr - pl) / 2
        let t1 := if npKey v t pm < npKey v t pl then npSwap t pm pl else t
        let t2 := if npKey v t1 pr < npKey v t1 pm then npSwap t1 pr pm else t1
        let t3 := if npKey v t2 pm < npKey v t2 pl then npSwap t2 pm pl else t2
        let vp := npKey v t3 pm
        let t4 := npSwap t3 pm (pr - 1)
        let pp := npPartLoop v t4 vp pl (pr - 1) t4.size
        let t6 := npSwap pp.1 pp.2 (pr - 1)
        if pp.2 - pl < pr - pp.2 then
          npIntro v t6 pl (pp.2 - 1) (depth - 1) ((pp.2 + 1, pr) :: stack) fuel
        else
          npIntro v t6 (pp.2 + 1) pr (depth - 1) ((pl, pp.2 - 1) :: stack) fuel
    else
      let t1 := npInsSortSeg v t pl pr
      match stack with
      | [] => t1
      | (a, b) :: rest => npIntro v t1 a b depth rest fuel

/-- numpy argsort, kind='quicksort'. -/
def npArgsort (keys : List Nat) : List Nat :=
  if keys.length = 0 then []
  else
    (npIntro keys.toArray (List.range keys.length).toArray 0 (keys.length - 1)
      (2 * (Nat.log2 keys.length) : Int) [] (2 * keys.length + 64)).toList

def defaultCRow : CRow := ⟨none, none, none, none, none, none, none⟩

/-- The datetime64 sort key as a linear order (valid for the in-range times
the pipeline produces). -/
def timeKey (r : CRow) : Nat :=
  match r.horario_sort with
  | none => 0
  | some hm => hm.1 * 60 + hm.2

/-- df.sort_values("horario_sort") on a (day-filtered) frame. -/
def sortValuesByTime (rows : List CRow) : List CRow :=
  (npArgsort (rows.map timeKey)).map (fun i => rows.getD i defaultCRow)

/-! ## The day buckets of gerar_pdf_agenda (src/main.py lines 262-291) -/

def diasOrdem : List (List Char) :=
  ["segunda".toList, "terça".toList, "quarta".toList, "quinta".toList,
    "sexta".toList, "sábado".toList]

/-- A NaN cell rendered inside an f-string prints as "nan". -/
def showCell (o : Option (List Char)) : List Char := o.getD "nan".toList

/-- One rendered schedule line of the PDF table. -/
def linha (r : CRow) : List Char :=
  showCell r.horario ++ " - ".toList ++ showCell r.nome ++ " (".toList ++
    showCell r.profissional ++ ") [".toList ++ showCell r.duracao ++
    " min]".toList

/-- The bucket construction of gerar_pdf_agenda: the empty frame
short-circuits to the "Nenhum horário cadastrado" message BEFORE any bucket
is built (modelled as `none`); otherwise one bucket per fixed weekday, with
rows sorted by sort key and a single blank placeholder line for empty days. -/
def dadosPorDia (df : List CRow) : Option (List (List Char × List (List Char))) :=
  if df = [] then none
  else some (diasOrdem.map (fun d =>
    (d,
      if (sortValuesByTime (df.filter (fun r => r.dia == some d))).map linha = []
      then [" ".toList]
      else (sortValuesByTime (df.filter (fun r => r.dia == some d))).map linha)))

/-- Seventeen rows on segunda, all at 09h00, with distinct client names
A0..A16, in insertion order. -/
def c6rows : List CRow :=
  (List.range 17).map (fun (i : Nat) =>
    ⟨some (((i : Int) + 1, 0) : PyNum), some "segunda".toList,
      some "09h00".toList, some (9, 0), some ('A' :: natStr i),
      some "P".toList, some "45".toList⟩)

set_option maxRecDepth 40000 in
/-- C6 (supporting evidence for the code_bug verdict): the sort used on each
day bucket is pandas sort_values with the default kind='quicksort', i.e.
numpy's unstable introsort; on a bucket of 17 rows that all carry the same
parsed time it permutes the rows (17 exceeds the insertion-sort cutoff of
16), so two rows with identical parsed time do NOT retain their original
relative order, contrary to the claim — the output is a genuine permutation
of the input with the ties reordered. -/
theorem C6_default_sort_breaks_ties :
    (sortValuesByTime c6rows).map (fun r => r.nome) ≠
      c6rows.map (fun r => r.nome) ∧
    List.Perm ((sortValuesByTime c6rows).map (fun r => r.nome))
      (c6rows.map (fun r => r.nome)) ∧
    ∀ r ∈ c6rows, r.horario_sort = some (9, 0) := by
  refine ⟨by decide, by decide, by decide⟩

/-- C7 counterexample: on the empty collection gerar_pdf_agenda returns the
placeholder message before any bucket is built, so there is no six-bucket
output at all, refuting "for every input row collection, including the empty
one". -/
theorem C7_counterexample : dadosPorDia ([] : List CRow) = none := by
  rfl

/-- C7 amended: for every NONEMPTY row collection the bucket construction of
gerar_pdf_agenda yields exactly six buckets, one per fixed weekday (segunda
through sábado) and in that order, each present even for zero-entry days
(which carry a single blank placeholder line); the empty collection instead
short-circuits to a message with no buckets. -/
theorem C7_six_buckets (df : List CRow) (h : df ≠ []) :
    ∃ bs, dadosPorDia df = some bs ∧ bs.map Prod.fst = diasOrdem ∧
      bs.length = 6 ∧ ∀ p ∈ bs, p.2 ≠ [] := by
  unfold dadosPorDia
  rw [if_neg h]
  refine ⟨_, rfl, ?_, ?_, ?_⟩
  · rw [List.map_map]
    exact List.map_id' diasOrdem
  · rw [List.length_map]
    rfl
  · intro p hp
    obtain ⟨d, hd, rfl⟩ := List.mem_map.mp hp
    dsimp only
    split
    · simp
    · rename_i hne
      exact hne

theorem C7_six_buckets_witness :
    ∃ bs, dadosPorDia [⟨some (1, 0), some "segunda".toList,
        some "08h00".toList, some (8, 0), some "Ana".toList, some "P".toList,
        some "45".toList⟩] = some bs ∧
      bs.map Prod.fst = diasOrdem ∧ bs.length = 6 ∧ ∀ p ∈ bs, p.2 ≠ [] :=
  C7_six_buckets _ (by decide)

/-! ## C8: the legacy-prefix strip in corrigir splits on the space character -/

/-- How corrigir applies one normalization outcome to a row. -/
def applyNorm (r : Row) (o : Option (List Char × List Char)) : Row :=
  match o with
  | none => r
  | some (hs, hd) => { r with horario_sort := some hs, horario := some hd }

/-- A legacy row whose time field carries a date prefix separated by a TAB
rather than a space. -/
def tabRow : Row where
  id := some "1".toList
  dia := some "segunda".toList
  horario := some ("1900-01-01\t08h00").toList
  horario_sort := none
  nome := some "Ana".toList
  profissional := some "P".toList
  duracao := some "45".toList

/-- The spec's concrete legacy row: date prefix separated by a space. -/
def legacyRow : Row where
  id := some "1".toList
  dia := some "segunda".toList
  horario := some ("1900-01-01 08h00").toList
  horario_sort := none
  nome := some "Ana".toList
  profissional := some "P".toList
  duracao := some "45".toList

/-- C8 counterexample: this row's raw time field contains whitespace (an
interior tab), and the substring after the last whitespace normalizes fine,
so the claim demands the repaired display time "08h00"; but the code splits
on the space character only (`" " in h` / `h.split(" ")[-1]`), so the row
passes through repair entirely unchanged and the claimed result does not
appear. -/
theorem C8_counterexample :
    (∃ c ∈ stripL ("1900-01-01\t08h00").toList, isWS c = true) ∧
    normalizar_horario "08h00".toList = some ("08:00".toList, "08h00".toList) ∧
    corrigir [tabRow] = [tabRow] ∧
    (corrigir [tabRow]).map (fun r => r.horario) ≠ [some "08h00".toList] := by
  refine ⟨⟨'\t', by decide, by decide⟩, by decide, by decide, by decide⟩

/-- C8 amended: repairTimes splits on the space character (U+0020) only: for
every row whose stripped raw time field contains a space, exactly the
substring after the last space is fed to normalize, the row being updated on
success and left alone on failure; whitespace other than the space character
is not split on.  The spec's concrete scenario holds: a raw row with
time_display "1900-01-01 08h00" and missing time_sortkey becomes
time_display "08h00" with time_sortkey "08:00". -/
theorem C8_last_space_segment :
    (∀ (r : Row) (s : List Char), r.horario = some s → ' ' ∈ stripL s →
      corrigirRow r =
        applyNorm r (normalizar_horario (lastSpaceSeg (stripL s)))) ∧
    corrigir [legacyRow] = [{ legacyRow with horario := some "08h00".toList, horario_sort := some "08:00".toList }] := by
  constructor
  · intro r s hr hsp
    have hc : (stripL s).contains ' ' = true := by simpa using hsp
    simp only [corrigirRow, hr, hc, if_true]
    cases hn : normalizar_horario (lastSpaceSeg (stripL s)) with
    | none => simp [applyNorm, hn]
    | some p =>
      obtain ⟨a, b⟩ := p
      simp [applyNorm, hn]
  · decide

theorem C8_witness :
    corrigirRow legacyRow = applyNorm legacyRow
      (normalizar_horario (lastSpaceSeg (stripL ("1900-01-01 08h00").toList))) :=
  C8_last_space_segment.1 legacyRow ("1900-01-01 08h00").toList rfl (by decide)

/-! ## Digit characters, pad2 and parseHM facts (groundwork for C3) -/

def charVal (c : Char) : Nat := c.toNat - 48

theorem digitChar10_spec : ∀ d : Nat, d < 10 →
    isPyDigit (digitChar10 d) = true ∧ charVal (digitChar10 d) = d := by
  decide

theorem digitChar10_digit (d : Nat) : isPyDigit (digitChar10 d) = true := by
  unfold digitChar10
  repeat' split
  all_goals decide

theorem char_eq_of_toNat {c d : Char} (h : c.toNat = d.toNat) : c = d :=
  Char.eq_of_val_eq (UInt32.eq_of_toBitVec_eq (BitVec.eq_of_toNat_eq h))

theorem isPyDigit_toNat {c : Char} (h : isPyDigit c = true) :
    48 ≤ c.toNat ∧ c.toNat ≤ 57 := by
  simp only [isPyDigit, Bool.and_eq_true, decide_eq_true_eq] at h
  obtain ⟨h0, h9⟩ := h
  rw [Char.le_def, UInt32.le_def, BitVec.le_def] at h0 h9
  exact ⟨h0, h9⟩

/-- Every digit character is the canonical rendering of its value. -/
theorem digit_char_enum {c : Char} (h : isPyDigit c = true) :
    c = digitChar10 (charVal c) ∧ charVal c < 10 := by
  obtain ⟨hlo, hhi⟩ := isPyDigit_toNat h
  have h10 : charVal c < 10 := by unfold charVal; omega
  refine ⟨?_, h10⟩
  apply char_eq_of_toNat
  set k := charVal c with hk
  obtain ⟨hd, hv⟩ := digitChar10_spec k h10
  obtain ⟨hlo2, hhi2⟩ := isPyDigit_toNat hd
  unfold charVal at hv hk
  omega

theorem digitsVal_pair (c1 c2 : Char) :
    digitsVal [c1, c2] = 10 * charVal c1 + charVal c2 := by
  show 10 * (10 * 0 + (c1.toNat - 48)) + (c2.toNat - 48) = 10 * charVal c1 + charVal c2
  unfold charVal
  omega

theorem pad2_spec {n : Nat} (h : n ≤ 99) :
    isDigits (pad2 n) = true ∧ (pad2 n).length = 2 ∧ digitsVal (pad2 n) = n := by
  refine ⟨?_, rfl, ?_⟩
  · simp only [pad2, isDigits, List.isEmpty_cons, Bool.not_false, List.all_cons,
      List.all_nil, Bool.and_true, Bool.true_and]
    rw [digitChar10_digit, digitChar10_digit]
    rfl
  · unfold pad2
    rw [digitsVal_pair, (digitChar10_spec _ (by omega)).2,
      (digitChar10_spec _ (by omega)).2]
    omega

/-- A two-character digit string is the pad2 rendering of its value. -/
theorem pad2_of_two_digits {a : List Char} (ha : isDigits a = true)
    (hl : a.length = 2) : pad2 (digitsVal a) = a ∧ digitsVal a ≤ 99 := by
  rcases a with _ | ⟨c1, _ | ⟨c2, _ | ⟨c3, r⟩⟩⟩ <;> simp at hl
  have hd : ∀ c ∈ [c1, c2], isPyDigit c = true := by
    simp only [isDigits, Bool.and_eq_true, List.all_eq_true] at ha
    exact ha.2
  obtain ⟨e1, b1⟩ := digit_char_enum (hd c1 (by simp))
  obtain ⟨e2, b2⟩ := digit_char_enum (hd c2 (by simp))
  rw [digitsVal_pair]
  constructor
  · unfold pad2
    have hx1 : (10 * charVal c1 + charVal c2) / 10 % 10 = charVal c1 := by omega
    have hx2 : (10 * charVal c1 + charVal c2) % 10 = charVal c2 := by omega
    rw [hx1, hx2, ← e1, ← e2]
  · omega

theorem pad2_digit {n : Nat} {c : Char} (hc : c ∈ pad2 n) : isPyDigit c = true := by
  unfold pad2 at hc
  rcases List.mem_cons.mp hc with rfl | h2
  · exact digitChar10_digit _
  · rcases List.mem_cons.mp h2 with rfl | h3
    · exact digitChar10_digit _
    · exact absurd h3 (by simp)

theorem pad2_no_colon (n : Nat) : ∀ c ∈ pad2 n, c ≠ ':' :=
  fun _ hc => (digit_facts (pad2_digit hc)).2.2.2.1

theorem parseHM_canon {h m : Nat} (hh : h ≤ 23) (hm : m ≤ 59) :
    parseHM (pad2 h ++ ':' :: pad2 m) = some (h, m) := by
  obtain ⟨hd1, hl1, hv1⟩ := pad2_spec (show h ≤ 99 by omega)
  obtain ⟨hd2, hl2, hv2⟩ := pad2_spec (show m ≤ 99 by omega)
  have hc1 : ':' ∉ pad2 h := fun hmem => pad2_no_colon h ':' hmem rfl
  have hc2 : ':' ∉ pad2 m := fun hmem => pad2_no_colon m ':' hmem rfl
  unfold parseHM
  rw [splitChar_append hc1, splitChar_of_not_mem hc2]
  dsimp only
  rw [if_pos]
  · rw [hv1, hv2]
  · simp only [Bool.and_eq_true, decide_eq_true_eq]
    exact ⟨⟨⟨⟨⟨hd1, by rw [hl1]⟩, by rw [hv1]; omega⟩, hd2⟩, by rw [hl2]⟩,
      by rw [hv2]; omega⟩

/-- The timestamp form written by save_csv for a datetime cell never parses
as %H:%M: it splits into three colon-fields. -/
theorem parseHM_serTime (hm : Nat × Nat) : parseHM (serTime hm) = none := by
  have hc1 : ':' ∉ "1900-01-01 ".toList ++ pad2 hm.1 := by
    intro hmem
    rcases List.mem_append.mp hmem with h | h
    · revert h; decide
    · exact pad2_no_colon hm.1 ':' h rfl
  have hc2 : ':' ∉ pad2 hm.2 := fun hmem => pad2_no_colon hm.2 ':' hmem rfl
  unfold parseHM serTime
  rw [splitChar_append hc1, splitChar_append hc2,
    splitChar_of_not_mem (by decide : ':' ∉ ['0', '0'])]

/-! ## natStr / intStr / pyToNumeric round-trip (groundwork for C3) -/

theorem digitsVal_append_singleton (xs : List Char) (c : Char) :
    digitsVal (xs ++ [c]) = 10 * digitsVal xs + (c.toNat - 48) := by
  unfold digitsVal
  rw [List.foldl_append]
  rfl

theorem natStrAux_spec (fuel : Nat) : ∀ n, n < fuel →
    (natStrAux fuel n).all isPyDigit = true ∧ natStrAux fuel n ≠ [] ∧
      digitsVal (natStrAux fuel n) = n := by
  induction fuel with
  | zero => intro n h; omega
  | succ f ih =>
    intro n h
    have hunf : natStrAux (f + 1) n = if n < 10 then [digitChar10 n]
        else natStrAux f (n / 10) ++ [digitChar10 (n % 10)] := rfl
    rw [hunf]
    by_cases h10 : n < 10
    · rw [if_pos h10]
      obtain ⟨hd, hv⟩ := digitChar10_spec n h10
      refine ⟨by simp [hd], by simp, ?_⟩
      rw [show ([digitChar10 n] : List Char) = [] ++ [digitChar10 n] from rfl,
        digitsVal_append_singleton]
      unfold charVal at hv
      show 10 * digitsVal [] + ((digitChar10 n).toNat - 48) = n
      unfold digitsVal
      simp only [List.foldl_nil]
      omega
    · rw [if_neg h10]
      obtain ⟨ha, hne, hv⟩ := ih (n / 10) (by omega)
      obtain ⟨hd, hdv⟩ := digitChar10_spec (n % 10) (by omega)
      unfold charVal at hdv
      refine ⟨?_, by simp, ?_⟩
      · rw [List.all_append, ha]
        simpa using hd
      · rw [digitsVal_append_singleton, hv, hdv]
        omega

theorem natStr_spec (n : Nat) :
    (natStr n).all isPyDigit = true ∧ natStr n ≠ [] ∧ digitsVal (natStr n) = n :=
  natStrAux_spec (n + 1) n (Nat.lt_succ_self n)

theorem takeWhile_all_eq {p : Char → Bool} {l : List Char}
    (h : ∀ c ∈ l, p c = true) : l.takeWhile p = l := by
  induction l with
  | nil => rfl
  | cons c cs ih =>
    rw [List.takeWhile_cons, h c (List.mem_cons_self ..), if_pos rfl,
      ih (fun x hx => h x (List.mem_cons_of_mem _ hx))]

theorem dropWhile_all_eq_nil {p : Char → Bool} {l : List Char}
    (h : ∀ c ∈ l, p c = true) : l.dropWhile p = [] := by
  induction l with
  | nil => rfl
  | cons c cs ih =>
    rw [List.dropWhile_cons, h c (List.mem_cons_self ..)]
    exact if_pos rfl ▸ ih (fun x hx => h x (List.mem_cons_of_mem _ hx))

theorem takeWhile_append_head_false {p : Char → Bool} {l s : List Char}
    (h : ∀ c ∈ l, p c = true) (hs : ∀ c ∈ s.take 1, p c = false) :
    (l ++ s).takeWhile p = l ∧ (l ++ s).dropWhile p = s := by
  induction l with
  | nil =>
    simp only [List.nil_append]
    cases s with
    | nil => exact ⟨rfl, rfl⟩
    | cons c cs =>
      have hc := hs c (by simp)
      rw [List.takeWhile_cons, List.dropWhile_cons, hc]
      simp
  | cons c cs ih =>
    obtain ⟨iht, ihd⟩ := ih (fun x hx => h x (List.mem_cons_of_mem _ hx))
    rw [List.cons_append, List.takeWhile_cons, List.dropWhile_cons,
      h c (List.mem_cons_self ..)]
    rw [if_pos rfl, iht, if_pos rfl, ihd]
    exact ⟨rfl, rfl⟩

theorem readSign_digit_head {c : Char} {cs : List Char}
    (h : isPyDigit c = true) : readSign (c :: cs) = (1, c :: cs) := by
  have hp : c ≠ '+' := fun e => absurd (e ▸ h) (by decide)
  have hm : c ≠ '-' := fun e => absurd (e ▸ h) (by decide)
  unfold readSign
  split
  · rename_i heqq
    injection heqq with h1 _
    exact absurd h1 hp
  · rename_i heqq
    injection heqq with h1 _
    exact absurd h1 hm
  · rfl

theorem readSign_all_digits {l : List Char} (hne : l ≠ [])
    (hd : ∀ c ∈ l, isPyDigit c = true) : readSign l = (1, l) := by
  obtain ⟨c, cs, rfl⟩ := List.exists_cons_of_ne_nil hne
  exact readSign_digit_head (hd c (List.mem_cons_self ..))

theorem readSign_digits_append {l t : List Char} (hne : l ≠ [])
    (hd : ∀ c ∈ l, isPyDigit c = true) : readSign (l ++ t) = (1, l ++ t) := by
  obtain ⟨c, cs, rfl⟩ := List.exists_cons_of_ne_nil hne
  rw [List.cons_append]
  exact readSign_digit_head (hd c (List.mem_cons_self ..))

/-- A digit string with no exponent parses to its value with exponent 0. -/
theorem pyToNumeric_core_plain {m : List Char}
    (hd : ∀ c ∈ m, isPyDigit c = true) (hne : m ≠ []) (sgn : Int)
    (s : List Char) (hrs : readSign s = (sgn, m)) :
    pyToNumeric s = some (sgn * (digitsVal m : Int), 0) := by
  obtain ⟨c, cs, rfl⟩ := List.exists_cons_of_ne_nil hne
  unfold pyToNumeric
  rw [hrs]
  dsimp only
  rw [takeWhile_all_eq hd, dropWhile_all_eq_nil hd]
  show (if ((c :: cs).isEmpty && true) = true then none
    else some (mkPN sgn (c :: cs) [] 0)) = _
  rw [if_neg (by simp)]
  unfold mkPN
  rw [if_pos (by omega)]
  simp

/-- A digit string with a negative exponent suffix parses to the expected
mantissa/exponent pair. -/
theorem pyToNumeric_core_eneg {m k : List Char}
    (hdm : ∀ c ∈ m, isPyDigit c = true) (hnem : m ≠ [])
    (hdk : ∀ c ∈ k, isPyDigit c = true) (hnek : k ≠ [])
    (hkpos : 0 < digitsVal k) (sgn : Int) (s : List Char)
    (hrs : readSign s = (sgn, m ++ 'e' :: '-' :: k)) :
    pyToNumeric s = some (sgn * (digitsVal m : Int), digitsVal k) := by
  obtain ⟨c, cs, rfl⟩ := List.exists_cons_of_ne_nil hnem
  obtain ⟨kc, kcs, rfl⟩ := List.exists_cons_of_ne_nil hnek
  obtain ⟨htake, hdrop⟩ := takeWhile_append_head_false (l := c :: cs)
    (s := 'e' :: '-' :: kc :: kcs) hdm (by intro x hx; simp at hx; subst hx; decide)
  unfold pyToNumeric
  rw [hrs]
  dsimp only
  rw [htake, hdrop]
  show (if ((c :: cs).isEmpty && true) = true then none
    else readExp sgn (c :: cs) [] ('-' :: kc :: kcs)) = _
  rw [if_neg (by simp)]
  unfold readExp
  show (if ((List.takeWhile isPyDigit (kc :: kcs)).isEmpty ||
      !(List.dropWhile isPyDigit (kc :: kcs)).isEmpty) = true then none
    else some (mkPN sgn (c :: cs) []
      (-1 * (digitsVal (List.takeWhile isPyDigit (kc :: kcs)) : Int)))) = _
  rw [takeWhile_all_eq hdk, dropWhile_all_eq_nil hdk]
  rw [if_neg (by simp)]
  unfold mkPN
  rw [if_neg (by
    simp only [not_le]
    omega)]
  simp only [List.append_nil, List.length_nil, Option.some.injEq, Prod.mk.injEq]
  constructor
  · ring_nf
  · omega

theorem pyToNumeric_serNum (p : PyNum) : pyToNumeric (serNum p) = some p := by
  obtain ⟨n, k⟩ := p
  have hm := natStr_spec n.natAbs
  obtain ⟨hma, hmn, hmv⟩ := hm
  have hmd : ∀ c ∈ natStr n.natAbs, isPyDigit c = true :=
    List.all_eq_true.mp hma
  unfold serNum intStr
  by_cases hk : k = 0
  · subst hk
    rw [if_pos rfl]
    by_cases hn : n < 0
    · rw [if_pos hn]
      rw [pyToNumeric_core_plain hmd hmn (-1) ('-' :: natStr n.natAbs) rfl]
      have habs : (n.natAbs : Int) = -n :=
        Int.ofNat_natAbs_of_nonpos (le_of_lt hn)
      rw [hmv]
      congr 1
      rw [Prod.mk.injEq]
      exact ⟨by omega, rfl⟩
    · rw [if_neg hn]
      have habs : n.toNat = n.natAbs := by omega
      rw [habs, pyToNumeric_core_plain hmd hmn 1 (natStr n.natAbs)
        (readSign_all_digits hmn hmd)]
      have habs2 : (n.natAbs : Int) = n := by omega
      rw [hmv]
      congr 1
      rw [Prod.mk.injEq]
      exact ⟨by omega, rfl⟩
  · rw [if_neg hk]
    have hkk := natStr_spec k
    obtain ⟨hka, hkn, hkv⟩ := hkk
    have hkd : ∀ c ∈ natStr k, isPyDigit c = true := List.all_eq_true.mp hka
    by_cases hn : n < 0
    · rw [if_pos hn]
      have hcons : ('-' :: natStr n.natAbs) ++ 'e' :: '-' :: natStr k
          = '-' :: (natStr n.natAbs ++ 'e' :: '-' :: natStr k) := rfl
      rw [hcons, pyToNumeric_core_eneg hmd hmn hkd hkn (by omega) (-1)
        ('-' :: (natStr n.natAbs ++ 'e' :: '-' :: natStr k)) rfl]
      have habs : (n.natAbs : Int) = -n :=
        Int.ofNat_natAbs_of_nonpos (le_of_lt hn)
      rw [hmv, hkv]
      congr 1
      rw [Prod.mk.injEq]
      exact ⟨by omega, rfl⟩
    · rw [if_neg hn]
      have habs : n.toNat = n.natAbs := by omega
      rw [habs, pyToNumeric_core_eneg hmd hmn hkd hkn (by omega) 1
        (natStr n.natAbs ++ 'e' :: '-' :: natStr k)
        (readSign_digits_append hmn hmd)]
      rw [hmv, hkv]
      congr 1
      rw [Prod.mk.injEq]
      exact ⟨by omega, rfl⟩

/-! ## More groundwork: duplicates, zips, serStr -/

theorem pnEq_refl (p : PyNum) : pnEq p p = true := by
  unfold pnEq
  simp

theorem hasDup_eq_false_iff {l : List (Option PyNum)} :
    hasDup l = false ↔ List.Pairwise (fun a b => pnCellEq a b = false) l := by
  induction l with
  | nil => simp [hasDup]
  | cons x xs ih =>
    rw [show hasDup (x :: xs) = (xs.any (pnCellEq x) || hasDup xs) from rfl]
    rw [Bool.or_eq_false_iff, List.pairwise_cons, ih, List.any_eq_false]
    simp only [Bool.not_eq_true]

theorem zip_map_self {α β γ : Type} (l : List α) (g : α → β) (f : α → β → γ) :
    (l.zip (l.map g)).map (fun ab => f ab.1 ab.2) = l.map (fun a => f a (g a)) := by
  induction l with
  | nil => rfl
  | cons a as ih =>
    rw [List.map_cons, List.zip_cons_cons, List.map_cons, ih]
    rfl

theorem dropDupsAux_eq_self {l : List Row} :
    ∀ seen, List.Pairwise (fun a b => a ≠ b) l → (∀ r ∈ l, r ∉ seen) →
      dropDupsAux seen l = l := by
  induction l with
  | nil => intro seen _ _; rfl
  | cons r rs ih =>
    intro seen hp hs
    rw [List.pairwise_cons] at hp
    unfold dropDupsAux
    rw [if_neg (hs r (List.mem_cons_self ..))]
    congr 1
    apply ih (r :: seen) hp.2
    intro x hx
    rw [List.mem_cons]
    rintro (rfl | hseen)
    · exact (hp.1 x hx) rfl
    · exact hs x (List.mem_cons_of_mem _ hx) hseen

theorem dropDups_eq_self {l : List Row}
    (hp : List.Pairwise (fun a b => a ≠ b) l) : dropDups l = l :=
  dropDupsAux_eq_self [] hp (by simp)

theorem dropDupsAux_subset {l : List Row} :
    ∀ seen r, r ∈ dropDupsAux seen l → r ∈ l := by
  induction l with
  | nil => intro seen r h; exact absurd h (by simp [dropDupsAux])
  | cons x xs ih =>
    intro seen r h
    unfold dropDupsAux at h
    split at h
    · exact List.mem_cons_of_mem _ (ih seen r h)
    · rcases List.mem_cons.mp h with rfl | h2
      · exact List.mem_cons_self ..
      · exact List.mem_cons_of_mem _ (ih (x :: seen) r h2)

theorem serStr_eq_self {o : Option (List Char)} (h : o ≠ some []) :
    serStr o = o := by
  cases o with
  | none => rfl
  | some s =>
    show (if s = [] then none else some s) = some s
    rw [if_neg (fun e => h (by rw [e]))]

theorem serStr_ne_empty (o : Option (List Char)) : serStr o ≠ some [] := by
  cases o with
  | none => simp [serStr]
  | some s =>
    show (if s = [] then none else some s) ≠ some []
    split
    · simp
    · rename_i hne
      simp [hne]

theorem pnCellEq_refl (o : Option PyNum) : pnCellEq o o = true := by
  cases o with
  | none => rfl
  | some p => exact pnEq_refl p

/-! ## The canonical persisted form and the two-cycle convergence of C3 -/

/-- A persisted agenda row in fully canonical form: display time HHhMM with
in-range value, sort key in the saved timestamp form, id a serialized
numeric, and no text cell holding the empty string. -/
def CanonRow (r : Row) : Prop :=
  ∃ h m, h ≤ 23 ∧ m ≤ 59 ∧
    r.horario = some (pad2 h ++ 'h' :: pad2 m) ∧
    r.horario_sort = some (serTime (h, m)) ∧
    (∃ p : PyNum, r.id = some (serNum p)) ∧
    r.dia ≠ some [] ∧ r.nome ≠ some [] ∧ r.profissional ≠ some [] ∧
    r.duracao ≠ some []

/-- The parsed id cells of persisted rows. -/
def rowIds (df : List Row) : List (Option PyNum) :=
  df.map (fun r => r.id.bind pyToNumeric)

/-- A canonical persisted file: every row canonical and all id values
pairwise distinct. -/
def Canon (df : List Row) : Prop :=
  (∀ r ∈ df, CanonRow r) ∧
  List.Pairwise (fun a b => pnCellEq a b = false) (rowIds df)

/-- Every row of a cycle output carries a saved timestamp sort key with
in-range time. -/
theorem cycle_sort_timestamp {G : List Row} {r : Row} (hr : r ∈ cycle G) :
    ∃ h m, h ≤ 23 ∧ m ≤ 59 ∧ r.horario_sort = some (serTime (h, m)) := by
  unfold cycle at hr
  obtain ⟨c, hc, rfl⟩ := List.mem_map.mp hr
  obtain ⟨h, m, hsort, hh, hm⟩ := pipeline_sort_in_range hc
  exact ⟨h, m, hh, hm, by simp [serializeRow, hsort]⟩

/-- corrigir either leaves a row alone or rewrites both time fields with a
canonical pair. -/
theorem corrigirRow_cases (r : Row) :
    corrigirRow r = r ∨
    ∃ a b, isDigits a = true ∧ isDigits b = true ∧ 2 ≤ a.length ∧
      2 ≤ b.length ∧ corrigirRow r = { r with horario_sort := some (a ++ ':' :: b), horario := some (a ++ 'h' :: b) } := by
  cases hh : r.horario with
  | none => exact Or.inl (by simp only [corrigirRow, hh])
  | some s =>
    cases hn : normalizar_horario
        (if (stripL s).contains ' ' then lastSpaceSeg (stripL s) else stripL s) with
    | none => exact Or.inl (by simp only [corrigirRow, hh, hn])
    | some p =>
      obtain ⟨hs, hd⟩ := p
      obtain ⟨a, b, ha, hb, ha2, hb2, rfl, rfl⟩ := normalizar_shape hn
      exact Or.inr ⟨a, b, ha, hb, ha2, hb2, by simp only [corrigirRow, hh, hn]⟩

/-- Rows surviving limpar come from an input row, with only the horario
fillna applied. -/
theorem limpar_mem {F : List Row} {w : Row} (hw : w ∈ limpar F) :
    ∃ v ∈ F, w = { v with horario := some (v.horario.getD []) } := by
  unfold limpar at hw
  obtain ⟨hw1, _⟩ := List.mem_filter.mp hw
  obtain ⟨v', hv', rfl⟩ := List.mem_map.mp hw1
  have hv'' := dropDupsAux_subset [] v' hv'
  obtain ⟨hvF, _⟩ := List.mem_filter.mp hv''
  exact ⟨v', hvF, rfl⟩

/-- What a successful %H:%M parse of a canonical sort string implies. -/
theorem parseHM_two_digits {a b : List Char} {h m : Nat}
    (ha : isDigits a = true) (hb : isDigits b = true)
    (H : parseHM (a ++ ':' :: b) = some (h, m)) :
    a.length ≤ 2 ∧ b.length ≤ 2 ∧ digitsVal a = h ∧ digitsVal b = m ∧
      h ≤ 23 ∧ m ≤ 59 := by
  have haD : ∀ c ∈ a, isPyDigit c = true := by
    simp only [isDigits, Bool.and_eq_true, List.all_eq_true] at ha; exact ha.2
  have hbD : ∀ c ∈ b, isPyDigit c = true := by
    simp only [isDigits, Bool.and_eq_true, List.all_eq_true] at hb; exact hb.2
  have hac : ':' ∉ a := fun hmm => absurd (haD _ hmm) (by decide)
  have hbc : ':' ∉ b := fun hmm => absurd (hbD _ hmm) (by decide)
  unfold parseHM at H
  rw [splitChar_append hac, splitChar_of_not_mem hbc] at H
  dsimp only at H
  split at H
  · rename_i hcond
    simp only [Bool.and_eq_true, decide_eq_true_eq] at hcond
    simp only [Option.some.injEq, Prod.mk.injEq] at H
    obtain ⟨rfl, rfl⟩ := H
    exact ⟨hcond.1.1.1.1.2, hcond.1.2, rfl, rfl, hcond.1.1.1.2, hcond.2⟩
  · exact absurd H (by simp)

/-- Every fix_ids output row is one input row carrying some parsed id. -/
theorem fix_ids_mem {df : List TRow} {c : CRow} (hc : c ∈ fix_ids df) :
    ∃ m ∈ df, ∃ p : PyNum, c = withId m (some p) := by
  unfold fix_ids at hc
  split at hc
  · obtain ⟨ir, hir, rfl⟩ := List.mem_map.mp hc
    rw [List.enum_eq_zip_range] at hir
    exact ⟨ir.2, (List.of_mem_zip hir).2, _, rfl⟩
  · rename_i hcond
    obtain ⟨rn, hrn, rfl⟩ := List.mem_map.mp hc
    obtain ⟨h1, h2⟩ := List.of_mem_zip hrn
    have hfalse : reassignTrigger df = false := by
      cases hx : reassignTrigger df
      · rfl
      · exact absurd hx hcond
    have hnone : (numIds df).any (fun o => o.isNone) = false := by
      unfold reassignTrigger at hfalse
      exact (Bool.or_eq_false_iff.mp hfalse).1
    rw [List.any_eq_false] at hnone
    have hsome := hnone rn.2 h2
    cases hrn2 : rn.2 with
    | none =>
      rw [hrn2] at hsome
      exact absurd (show (none : Option PyNum).isNone = true from rfl) hsome
    | some q => exact ⟨rn.1, h1, q, rfl⟩

/-- The contiguous 1..N id column has pairwise distinct values. -/
theorem oneToN_pairwise (n : Nat) :
    List.Pairwise (fun a b => pnCellEq a b = false) (oneToN n) := by
  unfold oneToN
  rw [List.pairwise_map]
  apply (List.pairwise_lt_range n).imp
  intro i j hij
  show pnEq ((i : Int) + 1, 0) ((j : Int) + 1, 0) = false
  unfold pnEq
  rw [beq_eq_false_iff_ne]
  simp only [pow_zero, mul_one, ne_eq]
  omega

/-- The id values of a pipeline output are pairwise distinct. -/
theorem pipeline_ids_pairwise (df : List Row) :
    List.Pairwise (fun a b => pnCellEq a b = false)
      ((pipeline df).map (fun c => c.id)) := by
  unfold pipeline
  rw [fix_ids_ids]
  by_cases htr : reassignTrigger (dropnaSort (toDatetime (corrigir (limpar df)))) = true
  · rw [if_pos htr]
    exact oneToN_pairwise _
  · rw [if_neg htr]
    have hfalse : reassignTrigger (dropnaSort (toDatetime (corrigir (limpar df)))) = false := by
      cases hx : reassignTrigger (dropnaSort (toDatetime (corrigir (limpar df))))
      · rfl
      · exact absurd hx htr
    unfold reassignTrigger at hfalse
    exact hasDup_eq_false_iff.mp (Bool.or_eq_false_iff.mp hfalse).2

/-- The parsed id cells of a cycle output are exactly the pipeline's ids. -/
theorem cycle_rowIds (F : List Row) :
    rowIds (cycle F) = (pipeline F).map (fun c => c.id) := by
  unfold rowIds cycle
  rw [List.map_map]
  apply List.map_congr_left
  intro c hc
  obtain ⟨m, hm, p, rfl⟩ := fix_ids_mem hc
  show pyToNumeric (serNum p) = some p
  exact pyToNumeric_serNum p

/-- Second-cycle canonicity: if every persisted sort key of F is unparseable
as %H:%M (as is the case for the timestamp forms a cycle writes), then the
next cycle's output is fully canonical. -/
theorem cycle_canon {F : List Row}
    (hts : ∀ r ∈ F, ∀ s, r.horario_sort = some s → parseHM s = none) :
    Canon (cycle F) := by
  constructor
  · intro r hr
    unfold cycle at hr
    obtain ⟨c, hc, rfl⟩ := List.mem_map.mp hr
    unfold pipeline at hc
    obtain ⟨mm, hmm, p, rfl⟩ := fix_ids_mem hc
    obtain ⟨hmem, hsome⟩ := List.mem_filter.mp hmm
    obtain ⟨u, hu, rfl⟩ := List.mem_map.mp hmem
    obtain ⟨w, hw, rfl⟩ := List.mem_map.mp hu
    have hsome' : ((corrigirRow w).horario_sort.bind parseHM).isSome = true := hsome
    obtain ⟨⟨h, m⟩, hphm⟩ := Option.isSome_iff_exists.mp hsome'
    rcases corrigirRow_cases w with hcw | ⟨a, b, ha, hb, ha2, hb2, hcw⟩
    · exfalso
      rw [hcw] at hphm
      cases hws : w.horario_sort with
      | none => rw [hws] at hphm; exact absurd hphm (by simp)
      | some s =>
        rw [hws] at hphm
        obtain ⟨v, hv, rfl⟩ := limpar_mem hw
        have hvs : v.horario_sort = some s := hws
        have hnone := hts v hv s hvs
        have : parseHM s = some (h, m) := hphm
        rw [hnone] at this
        exact absurd this (by simp)
    · rw [hcw] at hphm
      have hphm' : parseHM (a ++ ':' :: b) = some (h, m) := hphm
      obtain ⟨hla, hlb, hva, hvb, hh23, hm59⟩ := parseHM_two_digits ha hb hphm'
      have hla2 : a.length = 2 := le_antisymm hla ha2
      have hlb2 : b.length = 2 := le_antisymm hlb hb2
      have hea : pad2 h = a := by rw [← hva]; exact (pad2_of_two_digits ha hla2).1
      have heb : pad2 m = b := by rw [← hvb]; exact (pad2_of_two_digits hb hlb2).1
      have hane : a ≠ [] := by rw [← hea]; exact (by simp [pad2])
      rw [hcw]
      refine ⟨h, m, hh23, hm59, ?_, ?_, ⟨p, rfl⟩, serStr_ne_empty _,
        serStr_ne_empty _, serStr_ne_empty _, serStr_ne_empty _⟩
      · show serStr (some (a ++ 'h' :: b)) = some (pad2 h ++ 'h' :: pad2 m)
        rw [serStr_eq_self (by
          intro he
          simp only [Option.some.injEq] at he
          exact hane (List.append_eq_nil.mp he).1), hea, heb]
      · show ((some (a ++ ':' :: b)).bind parseHM).map serTime = some (serTime (h, m))
        rw [show (some (a ++ ':' :: b)).bind parseHM = parseHM (a ++ ':' :: b)
          from rfl, hphm']
        rfl
  · rw [cycle_rowIds]
    exact pipeline_ids_pairwise F

theorem rowExt {r1 r2 : Row} (h1 : r1.id = r2.id) (h2 : r1.dia = r2.dia)
    (h3 : r1.horario = r2.horario) (h4 : r1.horario_sort = r2.horario_sort)
    (h5 : r1.nome = r2.nome) (h6 : r1.profissional = r2.profissional)
    (h7 : r1.duracao = r2.duracao) : r1 = r2 := by
  cases r1; cases r2
  simp_all

theorem canon_rows_pairwise_ne {F : List Row}
    (hids : List.Pairwise (fun a b => pnCellEq a b = false) (rowIds F)) :
    List.Pairwise (fun a b => a ≠ b) F := by
  rw [rowIds, List.pairwise_map] at hids
  refine hids.imp ?_
  intro a b hab heq
  rw [heq, pnCellEq_refl] at hab
  exact absurd hab (by simp)

theorem canon_disp_strip (h m : Nat) :
    stripL (pad2 h ++ 'h' :: pad2 m) = pad2 h ++ 'h' :: pad2 m := by
  apply stripL_eq_self
  intro c hc
  rcases List.mem_append.mp hc with h1 | h1
  · exact (digit_facts (pad2_digit h1)).1
  · rcases List.mem_cons.mp h1 with rfl | h2
    · rfl
    · exact (digit_facts (pad2_digit h2)).1

theorem limpar_of_canon {F : List Row} (hcr : ∀ r ∈ F, CanonRow r)
    (hne : List.Pairwise (fun a b => a ≠ b) F) : limpar F = F := by
  unfold limpar
  have h1 : F.filter (fun r => !allNA r) = F := by
    rw [List.filter_eq_self]
    intro r hrF
    obtain ⟨h, m, _, _, hhor, _⟩ := hcr r hrF
    simp [allNA, hhor]
  rw [h1, dropDups_eq_self hne]
  have h2 : F.map (fun r => { r with horario := some (r.horario.getD []) }) = F := by
    have hcongr := List.map_congr_left (l := F)
      (f := fun r => { r with horario := some (r.horario.getD []) })
      (g := fun r => r) ?_
    · rw [hcongr, List.map_id']
    · intro r hrF
      obtain ⟨h, m, _, _, hhor, _⟩ := hcr r hrF
      show { r with horario := some (r.horario.getD []) } = r
      rw [show some (r.horario.getD []) = r.horario from by rw [hhor]; rfl]
  rw [h2, List.filter_eq_self]
  intro r hrF
  obtain ⟨h, m, _, _, hhor, _⟩ := hcr r hrF
  rw [hhor]
  show (stripL ((some (pad2 h ++ 'h' :: pad2 m)).getD []) != []) = true
  rw [show ((some (pad2 h ++ 'h' :: pad2 m)).getD ([] : List Char))
      = pad2 h ++ 'h' :: pad2 m from rfl, canon_disp_strip]
  simp [pad2]

theorem corrigirRow_id (r : Row) : (corrigirRow r).id = r.id := by
  rcases corrigirRow_cases r with hcw | ⟨a, b, _, _, _, _, hcw⟩ <;> rw [hcw]

/-- The end-to-end effect of one cycle on a single canonical row is the
identity. -/
theorem cycle_row_of_canon {r : Row} (hc : CanonRow r) :
    serializeRow (withId (toDatetimeRow (corrigirRow r))
      ((toDatetimeRow (corrigirRow r)).id.bind pyToNumeric)) = r := by
  obtain ⟨h, m, hh, hm, hhor, hsort, ⟨p, hid⟩, hdia, hnome, hprof, hdur⟩ := hc
  obtain ⟨hda, hla, hva⟩ := pad2_spec (show h ≤ 99 by omega)
  obtain ⟨hdb, hlb, hvb⟩ := pad2_spec (show m ≤ 99 by omega)
  have hcorr := corrigirRow_of_canonical hda hdb (by rw [hla]) (by rw [hlb])
    r hhor
  rw [hcorr]
  apply rowExt
  · show ((r.id.bind pyToNumeric).map serNum) = r.id
    rw [hid]
    show ((pyToNumeric (serNum p)).map serNum) = some (serNum p)
    rw [pyToNumeric_serNum]
    rfl
  · exact serStr_eq_self hdia
  · show serStr (some (pad2 h ++ 'h' :: pad2 m)) = r.horario
    rw [serStr_eq_self (by simp [pad2]), hhor]
  · show (parseHM (pad2 h ++ ':' :: pad2 m)).map serTime = r.horario_sort
    rw [parseHM_canon hh hm, hsort]
    rfl
  · exact serStr_eq_self hnome
  · exact serStr_eq_self hprof
  · exact serStr_eq_self hdur

/-- A canonical persisted file is a fixed point of the load/save cycle. -/
theorem cycle_of_canon {F : List Row} (hC : Canon F) : cycle F = F := by
  obtain ⟨hcr, hids⟩ := hC
  have hne := canon_rows_pairwise_ne hids
  unfold cycle pipeline
  rw [limpar_of_canon hcr hne]
  unfold corrigir toDatetime
  rw [List.map_map]
  have hdrop : dropnaSort (F.map (toDatetimeRow ∘ corrigirRow))
      = F.map (toDatetimeRow ∘ corrigirRow) := by
    unfold dropnaSort
    rw [List.filter_eq_self]
    intro t ht
    obtain ⟨r, hrF, rfl⟩ := List.mem_map.mp ht
    obtain ⟨h, m, hh, hm, hhor, hsort, _⟩ := hcr r hrF
    obtain ⟨hda, hla, hva⟩ := pad2_spec (show h ≤ 99 by omega)
    obtain ⟨hdb, hlb, hvb⟩ := pad2_spec (show m ≤ 99 by omega)
    have hcorr := corrigirRow_of_canonical hda hdb (by rw [hla]) (by rw [hlb])
      r hhor
    show ((toDatetimeRow (corrigirRow r)).horario_sort).isSome = true
    rw [hcorr]
    show ((some (pad2 h ++ ':' :: pad2 m)).bind parseHM).isSome = true
    rw [show (some (pad2 h ++ ':' :: pad2 m)).bind parseHM
      = parseHM (pad2 h ++ ':' :: pad2 m) from rfl, parseHM_canon hh hm]
    rfl
  rw [hdrop]
  have hids' : numIds (F.map (toDatetimeRow ∘ corrigirRow)) = rowIds F := by
    unfold numIds rowIds
    rw [List.map_map]
    apply List.map_congr_left
    intro r hrF
    show (toDatetimeRow (corrigirRow r)).id.bind pyToNumeric
      = r.id.bind pyToNumeric
    rw [show (toDatetimeRow (corrigirRow r)).id = (corrigirRow r).id from rfl,
      corrigirRow_id]
  have htrig : reassignTrigger (F.map (toDatetimeRow ∘ corrigirRow)) = false := by
    unfold reassignTrigger
    rw [hids', Bool.or_eq_false_iff]
    constructor
    · rw [List.any_eq_false]
      intro o ho
      obtain ⟨r, hrF, rfl⟩ := List.mem_map.mp ho
      obtain ⟨h, m, _, _, _, _, ⟨p, hid⟩, _⟩ := hcr r hrF
      rw [hid]
      show ¬ (pyToNumeric (serNum p)).isNone = true
      rw [pyToNumeric_serNum]
      simp
    · exact hasDup_eq_false_iff.mpr hids
  rw [show fix_ids (F.map (toDatetimeRow ∘ corrigirRow))
      = ((F.map (toDatetimeRow ∘ corrigirRow)).zip
          (numIds (F.map (toDatetimeRow ∘ corrigirRow)))).map
        (fun rn => withId rn.1 rn.2) from by
    unfold fix_ids
    rw [if_neg (by simp [htrig])]]
  rw [show numIds (F.map (toDatetimeRow ∘ corrigirRow))
      = (F.map (toDatetimeRow ∘ corrigirRow)).map
        (fun t => t.id.bind pyToNumeric) from rfl]
  rw [zip_map_self, List.map_map, List.map_map]
  have hfinal : List.map
      ((serializeRow ∘ fun a => withId a (a.id.bind pyToNumeric)) ∘
        toDatetimeRow ∘ corrigirRow) F = List.map (fun r => r) F := by
    apply List.map_congr_left
    intro r hrF
    exact cycle_row_of_canon (hcr r hrF)
  rw [hfinal, List.map_id']

/-- The stale-sort row: unparseable display time but a valid legacy sort
key.  It survives the first cycle (its sort key is then saved in timestamp
form) and is dropped by the second. -/
def staleSortRow : Row where
  id := some "1".toList
  dia := some "segunda".toList
  horario := some "xx".toList
  horario_sort := some "09:30".toList
  nome := some "Ana".toList
  profissional := some "P".toList
  duracao := some "45".toList

/-- C3 counterexample: the claim says the persisted file converges after ONE
load/save cycle, i.e. loading the file one cycle saved and running the
pipeline again changes nothing.  For this input the first cycle keeps the
row (its legacy sort key "09:30" parses) while failing to repair its display
time "xx", and saves the sort key as "1900-01-01 09:30:00"; the second cycle
cannot re-derive a sort key from "xx", the timestamp does not parse as
%H:%M, and the row is dropped: the file changes again. -/
theorem C3_counterexample :
    cycle [staleSortRow] ≠ [] ∧ cycle (cycle [staleSortRow]) = [] ∧
    cycle (cycle [staleSortRow]) ≠ cycle [staleSortRow] := by
  refine ⟨by decide, by decide, by decide⟩

/-- C3 amended: the clean → repairTimes → drop-unparseable → reindexIds
pipeline makes the persisted file self-healing after at most TWO load/save
cycles: the file saved by the second cycle is a fixed point of the pipeline
(cycle³ = cycle²), and one cycle is in general not enough — a row whose
display time is unparseable but whose stored sort key is a valid HH:MM
survives the first cycle and is only dropped by the second. -/
theorem C3_two_cycle_convergence (df : List Row) :
    cycle (cycle (cycle df)) = cycle (cycle df) := by
  apply cycle_of_canon
  apply cycle_canon
  intro r hr s hs
  obtain ⟨h, m, _, _, hsort⟩ := cycle_sort_timestamp hr
  rw [hsort] at hs
  obtain rfl : s = serTime (h, m) := by
    simp only [Option.some.injEq] at hs
    exact hs.symm
  exact parseHM_serTime (h, m)

end Estudio
